import Mathlib

/-!
Verification development for the o11y streaming core:
a concurrent circular byte buffer (`pkg/honeycomb/circularBuffer.go`, in its
fail-fast and auto-growing variants), a brace-matching JSON tokenizer
(`pkg/filter`, `JSONSplit`/`matchBrace`/`matchQuote`), and the filter engine
(`NewFilter`) that couples a `bufio.Scanner` over the buffer with an
interpreter chain and an output sink.

Bytes are modelled as `Nat` values (Go `byte` never overflows in this code:
bytes are only moved and compared, never arithmetically combined).  Go slices
become `List Nat`.  The Go mutex serializes every public operation, so each
operation is modelled as a pure state transformer on the buffer record; the
notification channel `C` (capacity 1) is modelled by a pending flag plus a
closed flag.
-/

/-- Errors surfaced by the circular buffer: `io.EOF` and `ErrNoRoom`
("insufficient capacity"). -/
inductive CBErr where
  | eof
  | noRoom
deriving DecidableEq, Repr

/-- State of a `CircularBuffer` (both Go variants share this layout):
`buf` is the physical storage (its length is the capacity), `len` the number
of valid bytes, `index` the read cursor, `closed` the close flag.
`chPending`/`chClosed` model the one-slot notification channel `C`:
`chPending` is true when a pulse is buffered, `chClosed` once `close(c.C)`
ran. -/
structure CircularBuffer where
  buf : List Nat
  len : Nat
  index : Nat
  closed : Bool
  chPending : Bool
  chClosed : Bool
deriving DecidableEq, Repr

/-- `NewCircularBuffer`: fresh buffer of the given capacity (zeroed storage,
empty, open, channel empty and open). -/
def NewCircularBuffer (capacity : Nat) : CircularBuffer :=
  { buf := List.replicate capacity 0
  , len := 0
  , index := 0
  , closed := false
  , chPending := false
  , chClosed := false }

/-- The storage rotated so that the read cursor comes first. -/
def CircularBuffer.rotView (c : CircularBuffer) : List Nat :=
  c.buf.drop c.index ++ c.buf.take c.index

/-- Logical content of the buffer: the `len` bytes starting at `index`,
wrapping around the physical end. -/
def CircularBuffer.content (c : CircularBuffer) : List Nat :=
  c.rotView.take c.len

/-- Well-formedness maintained by every operation: the cursor is inside the
storage and the length never exceeds the capacity (implies `0 < capacity`). -/
def CircularBuffer.wf (c : CircularBuffer) : Prop :=
  c.index < c.buf.length ∧ c.len ≤ c.buf.length

instance (c : CircularBuffer) : Decidable c.wf := by
  unfold CircularBuffer.wf; infer_instance

/-- Models Go `copy(dst[s:], src)`: overwrite `dst` starting at position `s`
with as much of `src` as fits; the length of `dst` is unchanged. -/
def listCopy (dst : List Nat) (s : Nat) (src : List Nat) : List Nat :=
  dst.take s ++ src.take (dst.length - s) ++ dst.drop (s + min src.length (dst.length - s))

/-- Models `addLen`: store the new length and, when it is nonzero and the
buffer is not closed, post a (coalesced) pulse on the notification channel. -/
def CircularBuffer.addLen (c : CircularBuffer) (newLen : Nat) : CircularBuffer :=
  { c with
    len := newLen
  , chPending := if newLen ≠ 0 ∧ c.closed = false then true else c.chPending }

/-- The unguarded circular copy shared by both Write variants: place `p` at
the logical tail (two physical segments when the write wraps) and extend the
length.  Caller has established that `p` fits. -/
def CircularBuffer.writeCore (c : CircularBuffer) (p : List Nat) : CircularBuffer :=
  let startWritingAt := (c.index + c.len) % c.buf.length
  let leftBeforeEnd := c.buf.length - startWritingAt
  if p.length < leftBeforeEnd then
    (CircularBuffer.addLen { c with buf := listCopy c.buf startWritingAt p } (c.len + p.length))
  else
    (CircularBuffer.addLen
      { c with buf := listCopy (listCopy c.buf startWritingAt (p.take leftBeforeEnd)) 0
                        (p.drop leftBeforeEnd) }
      (c.len + p.length))

/-- `Write` of the fail-fast variant: error `io.EOF` when closed, error
`ErrNoRoom` with no mutation when `p` does not fit, else the full circular
copy.  Returns the byte count written. -/
def CircularBuffer.Write (c : CircularBuffer) (p : List Nat) :
    CircularBuffer × Nat × Option CBErr :=
  if c.closed then (c, 0, some CBErr.eof)
  else if p.length > c.buf.length - c.len then (c, 0, some CBErr.noRoom)
  else (c.writeCore p, p.length, none)

/-- `Peek` into a destination of size `dstLen`: returns the copied-out bytes
(up to `min dstLen len` leading bytes), without moving the cursor.  Fails with
`io.EOF` exactly when the buffer is empty and closed. -/
def CircularBuffer.Peek (c : CircularBuffer) (dstLen : Nat) :
    List Nat × Option CBErr :=
  if c.len = 0 ∧ c.closed = true then ([], some CBErr.eof)
  else if min dstLen c.len < c.buf.length - c.index then
    ((c.buf.drop c.index).take (min dstLen c.len), none)
  else
    ((c.buf.drop c.index) ++ c.buf.take (min dstLen c.len - (c.buf.length - c.index)), none)

/-- `Consume n`: advance the cursor by `min n len`, reduce the length by the
same amount (posting a pulse when bytes remain), return the amount. -/
def CircularBuffer.Consume (c : CircularBuffer) (n : Nat) : CircularBuffer × Nat :=
  (CircularBuffer.addLen { c with index := (c.index + min n c.len) % c.buf.length }
    (c.len - min n c.len), min n c.len)

/-- `Read`: `Peek` followed by `Consume` of the peeked byte count. -/
def CircularBuffer.Read (c : CircularBuffer) (dstLen : Nat) :
    CircularBuffer × List Nat × Option CBErr :=
  match c.Peek dstLen with
  | (_, some e) => (c, [], some e)
  | (bytes, none) => ((c.Consume bytes.length).fst, bytes, none)

/-- `Close`: set the closed flag and close the notification channel.
`close` of an already-closed Go channel panics; the panic is modelled as
`none`. -/
def CircularBuffer.Close (c : CircularBuffer) : Option CircularBuffer :=
  if c.chClosed then none
  else some { c with closed := true, chClosed := true }

/-- The new storage size `resize` computes: `quarters` is 8 (doubling) while
the capacity is at most 8192 bytes and 5 (growth by a quarter) above that;
`minSize` wins when larger. -/
def growSize (capacity minSize : Nat) : Nat :=
  max (capacity * (if capacity > 8192 then 5 else 8) / 4) minSize

/-- `resize` of the auto-growing variant: reallocate to `growSize`, peeking
the live bytes into the fresh storage; the cursor resets to 0. -/
def CircularBuffer.resize (c : CircularBuffer) (minSize : Nat) :
    CircularBuffer × Option CBErr :=
  match c.Peek (growSize c.buf.length minSize) with
  | (_, some e) => (c, some e)
  | (bytes, none) =>
      ({ c with
         buf := bytes ++ List.replicate (growSize c.buf.length minSize - bytes.length) 0
       , index := 0 }, none)

/-- `Write` of the auto-growing variant: `io.EOF` when closed; when `p` does
not fit, `resize` to `len p + len` first; then the circular copy. -/
def CircularBuffer.WriteGrow (c : CircularBuffer) (p : List Nat) :
    CircularBuffer × Nat × Option CBErr :=
  if c.closed then (c, 0, some CBErr.eof)
  else if p.length > c.buf.length - c.len then
    match c.resize (p.length + c.len) with
    | (_, some e) => (c, 0, some e)
    | (c1, none) => (c1.writeCore p, p.length, none)
  else (c.writeCore p, p.length, none)

example :
    ((NewCircularBuffer 4).Write [1, 2, 3]).fst.content = [1, 2, 3] := by decide

example :
    (((NewCircularBuffer 4).Write [1, 2, 3]).fst.Read 2).snd.fst = [1, 2] := by decide

/-!
## Tokenizer (`pkg/filter`, split functions)

Byte constants: 34 is the double quote, 92 the backslash, 123 the opening
brace, 125 the closing brace.

`matchQuote`/`matchBrace` are direct embeddings of the Go scanning loops
(the `for` loops become tail recursion on the index; the Go functions return
`(-1, false)` or `(i, true)`, modelled as `Option Nat`).  To justify
termination of `matchBrace` (its loop resumes after a nested match at the
index the recursive call returned) the workers carry the bound
`start ≤ j < data.length` in a subtype; the wrappers project it away.
-/

/-- Worker for `matchQuote`: find the closing quote from `start`, a backslash
skipping the following byte. -/
def matchQuoteB (data : List Nat) (start : Nat) :
    Option {j : Nat // start ≤ j ∧ j < data.length} :=
  if h : start < data.length then
    if data.getD start 0 = 92 then
      match matchQuoteB data (start + 2) with
      | none => none
      | some ⟨j, hj⟩ => some ⟨j, by omega⟩
    else if data.getD start 0 = 34 then some ⟨start, by omega⟩
    else
      match matchQuoteB data (start + 1) with
      | none => none
      | some ⟨j, hj⟩ => some ⟨j, by omega⟩
  else none
termination_by data.length - start
decreasing_by all_goals omega

/-- Worker for `matchBrace`: find the brace closing the object opened just
before `start`, skipping quoted strings and nested objects. -/
def matchBraceB (data : List Nat) (start : Nat) :
    Option {j : Nat // start ≤ j ∧ j < data.length} :=
  if h : start < data.length then
    if data.getD start 0 = 125 then some ⟨start, by omega⟩
    else if data.getD start 0 = 34 then
      match matchQuoteB data (start + 1) with
      | none => none
      | some ⟨j, hj⟩ =>
        match matchBraceB data (j + 1) with
        | none => none
        | some ⟨k, hk⟩ => some ⟨k, by omega⟩
    else if data.getD start 0 = 123 then
      match matchBraceB data (start + 1) with
      | none => none
      | some ⟨j, hj⟩ =>
        match matchBraceB data (j + 1) with
        | none => none
        | some ⟨k, hk⟩ => some ⟨k, by omega⟩
    else
      match matchBraceB data (start + 1) with
      | none => none
      | some ⟨j, hj⟩ => some ⟨j, by omega⟩
  else none
termination_by data.length - start
decreasing_by all_goals omega

/-- `matchQuote data start`: index of the closing double quote, or `none`. -/
def matchQuote (data : List Nat) (start : Nat) : Option Nat :=
  (matchQuoteB data start).map Subtype.val

/-- `matchBrace data start`: index of the matching closing brace, or `none`. -/
def matchBrace (data : List Nat) (start : Nat) : Option Nat :=
  (matchBraceB data start).map Subtype.val

/-- Result triple of a `bufio.SplitFunc`. -/
structure SplitRes where
  advance : Nat
  token : Option (List Nat)
  err : Option String
deriving DecidableEq, Repr

/-- `JSONSplit`: extract one brace-delimited JSON object from the window,
discarding bytes before the first opening brace. -/
def JSONSplit (data : List Nat) (atEOF : Bool) : SplitRes :=
  if atEOF = true ∧ data.length = 0 then ⟨0, none, none⟩
  else
    match data.findIdx? (fun b => b = 123) with
    | none => ⟨0, none, none⟩
    | some start =>
      match matchBrace data (start + 1) with
      | none =>
          if atEOF then ⟨0, none, some "incomplete JSON object"⟩ else ⟨0, none, none⟩
      | some endIdx => ⟨endIdx + 1, some ((data.take (endIdx + 1)).drop start), none⟩

/-!
### Specification-side tokenizer

`specScan` is written from the spec's words, independently of the Go
recursion: a single left-to-right scan tracking the brace depth and a
quoted-string state with a backslash-escape flag; it returns the relative
index of the closing brace that brings the depth to zero.  It is structural,
so concrete instances evaluate by `decide`.
-/

/-- Depth-aware scan of the spec's object-split description. -/
def specScan : List Nat → Nat → Bool → Bool → Option Nat
  | [], _, _, _ => none
  | b :: rest, depth, inStr, esc =>
    if inStr then
      if esc then (specScan rest depth true false).map (· + 1)
      else if b = 92 then (specScan rest depth true true).map (· + 1)
      else if b = 34 then (specScan rest depth false false).map (· + 1)
      else (specScan rest depth true false).map (· + 1)
    else
      if b = 34 then (specScan rest depth true false).map (· + 1)
      else if b = 123 then (specScan rest (depth + 1) false false).map (· + 1)
      else if b = 125 then
        if depth = 1 then some 0 else (specScan rest (depth - 1) false false).map (· + 1)
      else (specScan rest depth false false).map (· + 1)

/-- Object split as the spec words it: find the first opening brace, then
depth-aware scan from the byte after it; the token runs from the brace to its
match inclusive, the advance also counts the discarded prefix; an exhausted
window is an error exactly when `atEnd`. -/
def JSONSplitSpec (data : List Nat) (atEnd : Bool) : SplitRes :=
  match data.findIdx? (fun b => b = 123) with
  | none => ⟨0, none, none⟩
  | some s =>
    match specScan (data.drop (s + 1)) 1 false false with
    | none =>
        if atEnd then ⟨0, none, some "incomplete JSON object"⟩ else ⟨0, none, none⟩
    | some rel => ⟨s + 1 + rel + 1, some ((data.take (s + 1 + rel + 1)).drop s), none⟩

/-- Iterated brace matching: `braceChain data d i` is the index of the brace
closing the `(d+1)`-st enclosing object when scanning from `i` (the bridge
between the recursive `matchBrace` and the depth counter of `specScan`). -/
def braceChain (data : List Nat) : Nat → Nat → Option Nat
  | 0, i => matchBrace data i
  | d + 1, i => (matchBrace data i).bind fun j => braceChain data d (j + 1)

example : JSONSplitSpec [106, 123, 125] false = ⟨3, some [123, 125], none⟩ := by decide

/-!
## Filter engine (`pkg/filter/filter.go`)

`NewFilter` spawns a goroutine running `bufio.NewScanner` over the circular
buffer; the loop body is `select { case <-fp.cbuf.C: ... }`.  The scanner is
the Go standard library's: it keeps an internal window `sbuf`, a sticky first
error `serr` (`setErr` replaces only `nil`/`io.EOF`), and the last token.
`Scan` repeatedly splits the window, reading more bytes from the buffer when
no token can be produced; a read from an empty open buffer returns no bytes,
which after `maxConsecutiveEmptyReads` repetitions makes the scanner record
`io.ErrNoProgress` — in this single-consumer model (no writer interleaved
inside one `Scan` call) that inner loop's outcome is a function of the buffer
state, embedded here as the three read cases.  The scanner's window is
modelled as unbounded (the 64KiB max-token limit of `bufio` is never reached
in the scenarios settled here) and `ErrFinalToken`, which no splitter of this
repository returns, is omitted.  Interpreter values are modelled as strings,
the only value type this engine core itself produces.
-/

/-- Scanner-side errors: `io.EOF`, `io.ErrNoProgress`, `ErrAdvanceTooFar`,
and an error returned by the split function. -/
inductive ScErr where
  | eof
  | noProgress
  | badAdvance
  | splitErr (msg : String)
deriving DecidableEq, Repr

/-- `Scanner.setErr`: record the error unless one (other than `io.EOF`) is
already recorded. -/
def setErr : Option ScErr → ScErr → Option ScErr
  | none, e => some e
  | some ScErr.eof, e => some e
  | some x, _ => some x

/-- `Scanner.Err`: the first non-EOF error, as the message the engine prints. -/
def scErrMsg : Option ScErr → Option String
  | none => none
  | some ScErr.eof => none
  | some ScErr.noProgress => some "multiple Read calls return no data or error"
  | some ScErr.badAdvance => some "bufio.Scanner: SplitFunc returns advance count beyond input"
  | some (ScErr.splitErr m) => some m

/-- State of the `bufio.Scanner`: buffered window, last token, sticky error. -/
structure ScanState where
  sbuf : List Nat
  stoken : List Nat
  serr : Option ScErr
deriving DecidableEq, Repr

/-- Scanner state right after `bufio.NewScanner`. -/
def initScanState : ScanState := { sbuf := [], stoken := [], serr := none }

/-- Consume everything the buffer holds (the read side of `Read` after a
`Peek` of the full length). -/
def cbDrainAll (c : CircularBuffer) : CircularBuffer := (c.Consume c.len).fst

/-- `Scanner.Scan`'s loop: split the window when it is nonempty or an error
is recorded; a split error or an over-long advance is recorded sticky and
`Scan` fails; a token is returned after consuming the advance; otherwise,
with an error already recorded the scanner shuts down (discarding its
window), else it reads from the buffer: data is transferred, or end-of-data
records `io.EOF` when the buffer is closed and `io.ErrNoProgress` when it is
open, and the loop restarts. -/
def scanGo (split : List Nat → Bool → SplitRes) (sc : ScanState) (cb : CircularBuffer) :
    Bool × ScanState × CircularBuffer :=
  if 0 < sc.sbuf.length ∨ sc.serr.isSome = true then
    match split sc.sbuf sc.serr.isSome with
    | ⟨adv, tok, err⟩ =>
      match err with
      | some m => (false, { sc with serr := setErr sc.serr (ScErr.splitErr m) }, cb)
      | none =>
        if adv > sc.sbuf.length then
          (false, { sc with serr := setErr sc.serr ScErr.badAdvance }, cb)
        else
          match tok with
          | some t => (true, { sc with sbuf := sc.sbuf.drop adv, stoken := t }, cb)
          | none =>
            if sc.serr.isSome = true then
              (false, { sc with sbuf := [], stoken := [] }, cb)
            else if h : 0 < cb.len then
              scanGo split
                { sc with sbuf := sc.sbuf.drop adv ++ (cb.Peek cb.len).fst, stoken := [] }
                (cbDrainAll cb)
            else if cb.closed then
              scanGo split
                { sc with sbuf := sc.sbuf.drop adv, stoken := [], serr := some ScErr.eof } cb
            else
              scanGo split
                { sc with sbuf := sc.sbuf.drop adv, stoken := [], serr := some ScErr.noProgress }
                cb
  else
    if h : 0 < cb.len then
      scanGo split { sc with sbuf := sc.sbuf ++ (cb.Peek cb.len).fst } (cbDrainAll cb)
    else if cb.closed then
      scanGo split { sc with serr := some ScErr.eof } cb
    else
      scanGo split { sc with serr := some ScErr.noProgress } cb
termination_by (if sc.serr.isSome then 0 else cb.len + 1)
decreasing_by
  all_goals simp_all [cbDrainAll, CircularBuffer.Consume, CircularBuffer.addLen]

/-- A field map handed to interpreters and the sink. -/
abbrev FieldSet := List (String × String)

/-- The interpreter capability: consume bytes, extend the field map. -/
abbrev Terp := List Nat → FieldSet → List Nat × FieldSet

/-- The engine's interpreter fold: `data, fields = i.Interpret(data, fields)`
for each interpreter in order. -/
def runTerps (ts : List Terp) (data : List Nat) (fs : FieldSet) : List Nat × FieldSet :=
  ts.foldl (fun acc t => t acc.fst acc.snd) (data, fs)

/-- The synthetic diagnostic record the goroutine emits when the scanner
fails with an error. -/
def diagFS (m : String) : FieldSet := [("module", "filter"), ("level", "error"), ("error", m)]

/-- The running state of one Filter's background goroutine. -/
structure Eng where
  terps : List Terp
  cb : CircularBuffer
  sc : ScanState

/-- One iteration of the goroutine's `for { select { case <-fp.cbuf.C: ... } }`:
the receive proceeds when a pulse is pending or the channel is closed (and
consumes the pulse), otherwise the task blocks (`none`).  The body runs
`scanner.Scan()`; on failure with a non-nil `scanner.Err()` it emits the
diagnostic record; it then unconditionally folds `scanner.Bytes()` through
the interpreters and emits the resulting field map.  The loop body contains
no exit statement.  Writers are interleaved between iterations. -/
def engineStep (split : List Nat → Bool → SplitRes) (e : Eng) :
    Option (Eng × List FieldSet) :=
  if e.cb.chPending = true ∨ e.cb.chClosed = true then
    match scanGo split e.sc { e.cb with chPending := false } with
    | (ok, sc2, cb2) =>
      some ({ e with cb := cb2, sc := sc2 },
        (if ok = false then
          match scErrMsg sc2.serr with
          | some m => [diagFS m]
          | none => []
        else []) ++ [(runTerps e.terps sc2.stoken []).snd])
  else none

/-- Run `n` iterations of the consumer loop, collecting every record handed
to the sink; `none` when the task blocks on the channel before finishing. -/
def engineRun (split : List Nat → Bool → SplitRes) : Nat → Eng → Option (Eng × List FieldSet)
  | 0, e => some (e, [])
  | n + 1, e =>
    match engineStep split e with
    | none => none
    | some (e1, out) =>
      match engineRun split n e1 with
      | none => none
      | some (e2, outs) => some (e2, out ++ outs)

namespace filter

/-- The `Filter` record: interpreters plus the owned circular buffer. -/
structure Filter where
  Interpreters : List Terp
  cbuf : CircularBuffer

/-- `NewFilter`: its parameters are a split function, an output callback and
the interpreters — the circular buffer is allocated with the constant
capacity 4000. -/
def NewFilter (splitter : List Nat → Bool → SplitRes) (output : FieldSet → Unit)
    (terps : List Terp) : Filter :=
  { Interpreters := terps, cbuf := NewCircularBuffer 4000 }

end filter

/-!
## Interleaved operation sequences on the fail-fast buffer (for round-trip)
-/

/-- One producer/consumer step against the buffer. -/
inductive BufOp where
  | write (p : List Nat)
  | read (dstLen : Nat)

/-- Result of running an operation sequence. -/
structure RunAcc where
  final : CircularBuffer
  reads : List Nat
  writes : List Nat
  ok : Bool

/-- Run a sequence of `Write`/`Read` calls, concatenating all bytes returned
by reads and all bytes passed to writes; `ok` records that every write
succeeded (the sequence never overfills the buffer). -/
def runOps : CircularBuffer → List BufOp → RunAcc
  | c, [] => ⟨c, [], [], true⟩
  | c, BufOp.write p :: rest =>
    match c.Write p with
    | (c1, _, err) =>
      match runOps c1 rest with
      | ⟨f, rs, ws, ok⟩ => ⟨f, rs, p ++ ws, decide (err = none) && ok⟩
  | c, BufOp.read d :: rest =>
    match c.Read d with
    | (c1, bytes, _) =>
      match runOps c1 rest with
      | ⟨f, rs, ws, ok⟩ => ⟨f, bytes ++ rs, ws, ok⟩

/-!
## Concrete scenario constants
-/

/-- The bytes of `junk{"a":1}more{"b":2}`. -/
def exJunk : List Nat :=
  [106, 117, 110, 107, 123, 34, 97, 34, 58, 49, 125,
   109, 111, 114, 101, 123, 34, 98, 34, 58, 50, 125]

/-- The bytes of `{"a":1}{"b":2}`: two complete objects. -/
def exTwoObjs : List Nat :=
  [123, 34, 97, 34, 58, 49, 125, 123, 34, 98, 34, 58, 50, 125]

/-- The bytes of `{"a":`: an unterminated object. -/
def exIncomplete : List Nat := [123, 34, 97, 34, 58]

/-- The bytes of the object with a quoted closing brace. -/
def exQuotedBrace : List Nat := [123, 34, 97, 34, 58, 34, 125, 34, 125]

/-- Engine state: fresh JSON filter whose buffer received the single write
`{"a":1}{"b":2}` (one pending pulse). -/
def c5Eng0 : Eng :=
  { terps := [], cb := ((NewCircularBuffer 4000).Write exTwoObjs).fst, sc := initScanState }

/-- Buffer holding the unterminated `{"a":` and then closed. -/
def c2CB : CircularBuffer :=
  (((NewCircularBuffer 4000).Write exIncomplete).fst.Close).getD (NewCircularBuffer 0)

/-- Engine state: fresh JSON filter after writing `{"a":` and closing. -/
def c2Eng0 : Eng := { terps := [], cb := c2CB, sc := initScanState }

/-- Scanner state after the first error wake-up: the window still holds the
unmatched bytes and the split error is recorded sticky. -/
def c2ScErr : ScanState :=
  { sbuf := exIncomplete, stoken := [],
    serr := some (ScErr.splitErr "incomplete JSON object") }

/-- Engine state after the first error wake-up. -/
def c2E1 : Eng :=
  { terps := [], cb := cbDrainAll { c2CB with chPending := false }, sc := c2ScErr }

/-- Engine state after the second error wake-up. -/
def c2E2 : Eng :=
  { terps := [],
    cb := { cbDrainAll { c2CB with chPending := false } with chPending := false },
    sc := c2ScErr }

/-- Buffer closed while empty (closed and fully drained). -/
def c1CB : CircularBuffer := ((NewCircularBuffer 4000).Close).getD (NewCircularBuffer 0)

/-- Engine state: fresh JSON filter whose buffer is closed and drained. -/
def c1Eng0 : Eng := { terps := [], cb := c1CB, sc := initScanState }

/-- Invariant tying a recorded split error to the scanner's retained window:
the window still fails, with the same message, when split at end-of-stream. -/
def ErrInv (split : List Nat → Bool → SplitRes) (sc : ScanState) : Prop :=
  ∀ msg, sc.serr = some (ScErr.splitErr msg) → (split sc.sbuf true).err = some msg

/-!
## Helper lemmas: list surgery and the rotated view
-/

theorem mod_lt_two_mul (a b : Nat) (h1 : a < 2 * b) :
    a % b = if a < b then a else a - b := by
  split
  · exact Nat.mod_eq_of_lt (by assumption)
  · rw [Nat.mod_eq_sub_mod (by omega)]
    exact Nat.mod_eq_of_lt (by omega)

theorem listCopy_length (dst src : List Nat) (s : Nat) :
    (listCopy dst s src).length = dst.length := by
  simp [listCopy]
  omega

theorem rotView_length (c : CircularBuffer) : c.rotView.length = c.buf.length := by
  simp [CircularBuffer.rotView]
  omega

theorem listCopy_getElem? (dst src : List Nat) (s q : Nat) (hs : s ≤ dst.length) :
    (listCopy dst s src)[q]? =
      if s ≤ q ∧ q < s + min src.length (dst.length - s) then src[q - s]?
      else dst[q]? := by
  unfold listCopy
  rw [List.getElem?_append, List.getElem?_append]
  simp only [List.getElem?_take, List.getElem?_drop, List.length_append, List.length_take]
  by_cases h1 : q < s
  · rw [if_pos (by omega), if_pos (by omega), if_pos (by omega), if_neg (by omega)]
  · by_cases h2 : q < s + min src.length (dst.length - s)
    · rw [if_pos (by omega), if_neg (by omega), if_pos (by omega), if_pos (by omega)]
      congr 1
      omega
    · rw [if_neg (by omega), if_neg (by omega)]
      congr 1
      omega

theorem rotView_getElem? (c : CircularBuffer) (h : c.index < c.buf.length) (m : Nat)
    (hm : m < c.buf.length) :
    c.rotView[m]? = c.buf[(c.index + m) % c.buf.length]? := by
  unfold CircularBuffer.rotView
  rw [List.getElem?_append, mod_lt_two_mul (c.index + m) c.buf.length (by omega)]
  simp only [List.getElem?_take, List.getElem?_drop, List.length_drop]
  by_cases h1 : m < c.buf.length - c.index
  · rw [if_pos (by omega), if_pos (by omega)]
  · rw [if_neg (by omega), if_pos (by omega), if_neg (by omega)]
    congr 1
    omega

theorem splice_getElem? (R p : List Nat) (k m : Nat)
    (hfit : k + p.length ≤ R.length) :
    (R.take k ++ p ++ R.drop (k + p.length))[m]? =
      if k ≤ m ∧ m < k + p.length then p[m - k]? else R[m]? := by
  rw [List.getElem?_append, List.getElem?_append]
  simp only [List.getElem?_take, List.getElem?_drop, List.length_append, List.length_take]
  by_cases h1 : m < k
  · rw [if_pos (by omega), if_pos (by omega), if_pos (by omega), if_neg (by omega)]
  · by_cases h2 : m < k + p.length
    · rw [if_pos (by omega), if_neg (by omega), if_pos (by omega)]
      congr 1
      omega
    · rw [if_neg (by omega), if_neg (by omega)]
      by_cases h3 : m < R.length
      · congr 1; omega
      · rw [List.getElem?_eq_none (by omega), List.getElem?_eq_none (by omega)]

theorem writeCore_buf_length (c : CircularBuffer) (p : List Nat) :
    (c.writeCore p).buf.length = c.buf.length := by
  simp only [CircularBuffer.writeCore]
  split <;> simp [CircularBuffer.addLen, listCopy_length]

theorem writeCore_index (c : CircularBuffer) (p : List Nat) :
    (c.writeCore p).index = c.index := by
  simp only [CircularBuffer.writeCore]
  split <;> simp [CircularBuffer.addLen]

theorem writeCore_len (c : CircularBuffer) (p : List Nat) :
    (c.writeCore p).len = c.len + p.length := by
  simp only [CircularBuffer.writeCore]
  split <;> simp [CircularBuffer.addLen]

theorem writeCore_closed (c : CircularBuffer) (p : List Nat) :
    (c.writeCore p).closed = c.closed := by
  simp only [CircularBuffer.writeCore]
  split <;> simp [CircularBuffer.addLen]

theorem writeCore_chClosed (c : CircularBuffer) (p : List Nat) :
    (c.writeCore p).chClosed = c.chClosed := by
  simp only [CircularBuffer.writeCore]
  split <;> simp [CircularBuffer.addLen]

theorem writeCore_buf (c : CircularBuffer) (p : List Nat) :
    (c.writeCore p).buf =
      if p.length < c.buf.length - (c.index + c.len) % c.buf.length then
        listCopy c.buf ((c.index + c.len) % c.buf.length) p
      else
        listCopy
          (listCopy c.buf ((c.index + c.len) % c.buf.length)
            (p.take (c.buf.length - (c.index + c.len) % c.buf.length))) 0
          (p.drop (c.buf.length - (c.index + c.len) % c.buf.length)) := by
  simp only [CircularBuffer.writeCore]
  split <;> simp_all [CircularBuffer.addLen]

theorem rotView_writeCore (c : CircularBuffer) (p : List Nat)
    (hi : c.index < c.buf.length) (hfit : c.len + p.length ≤ c.buf.length) :
    (c.writeCore p).rotView =
      c.rotView.take c.len ++ p ++ c.rotView.drop (c.len + p.length) := by
  apply List.ext_getElem?
  intro m
  rw [splice_getElem? _ _ _ _ (by rw [rotView_length]; omega)]
  by_cases hm : m < c.buf.length
  · have hsn : (c.index + c.len) % c.buf.length < c.buf.length := Nat.mod_lt _ (by omega)
    have h2n := mod_lt_two_mul (c.index + c.len) c.buf.length (by omega)
    have h2m := mod_lt_two_mul (c.index + m) c.buf.length (by omega)
    rw [rotView_getElem? _ (by rw [writeCore_index, writeCore_buf_length]; omega) m
        (by rw [writeCore_buf_length]; omega), writeCore_index, writeCore_buf_length,
      rotView_getElem? c hi m hm, writeCore_buf]
    split
    · rw [listCopy_getElem? _ _ _ _ (by omega)]
      split_ifs with hc1 hc2 hc2
      · congr 1
        split at h2n <;> split at h2m <;> omega
      · exfalso
        split at h2n <;> split at h2m <;> omega
      · exfalso
        split at h2n <;> split at h2m <;> omega
      · rfl
    · rw [listCopy_getElem? _ _ _ _ (Nat.zero_le _),
        listCopy_getElem? _ _ _ _ (by omega)]
      simp only [List.length_drop, List.length_take, listCopy_length, Nat.sub_zero,
        Nat.zero_add]
      by_cases hm2 : c.len ≤ m ∧ m < c.len + p.length
      · rw [if_pos hm2]
        by_cases ht : m - c.len < c.buf.length - (c.index + c.len) % c.buf.length
        · rw [if_neg (by split at h2n <;> split at h2m <;> omega),
            if_pos (by split at h2n <;> split at h2m <;> omega),
            List.getElem?_take, if_pos (by split at h2n <;> split at h2m <;> omega)]
          congr 1
          split at h2n <;> split at h2m <;> omega
        · rw [if_pos (by split at h2n <;> split at h2m <;> omega),
            List.getElem?_drop]
          congr 1
          split at h2n <;> split at h2m <;> omega
      · rw [if_neg hm2,
          if_neg (by split at h2n <;> split at h2m <;> omega),
          if_neg (by split at h2n <;> split at h2m <;> omega)]
  · rw [List.getElem?_eq_none (by rw [rotView_length, writeCore_buf_length]; omega),
      if_neg (by omega),
      List.getElem?_eq_none (by rw [rotView_length]; omega)]

theorem writeCore_chPending (c : CircularBuffer) (p : List Nat) :
    (c.writeCore p).chPending =
      if c.len + p.length ≠ 0 ∧ c.closed = false then true else c.chPending := by
  simp only [CircularBuffer.writeCore]
  split <;> simp [CircularBuffer.addLen]

theorem content_writeCore (c : CircularBuffer) (p : List Nat)
    (hi : c.index < c.buf.length) (hfit : c.len + p.length ≤ c.buf.length) :
    (c.writeCore p).content = c.content ++ p := by
  unfold CircularBuffer.content
  rw [writeCore_len, rotView_writeCore c p hi hfit]
  have h1 : (c.rotView.take c.len ++ p).length = c.len + p.length := by
    rw [List.length_append, List.length_take, rotView_length]
    omega
  rw [List.take_append_eq_append_take, h1, Nat.sub_self, List.take_zero,
    List.append_nil, ← h1, List.take_length]

theorem Peek_ok (c : CircularBuffer) (d : Nat) (hi : c.index < c.buf.length)
    (hk : c.len ≤ c.buf.length) (hne : ¬(c.len = 0 ∧ c.closed = true)) :
    c.Peek d = (c.content.take (min d c.len), none) := by
  unfold CircularBuffer.Peek CircularBuffer.content CircularBuffer.rotView
  rw [if_neg hne, List.take_take,
    show min (min d c.len) c.len = min d c.len by omega]
  split
  · refine Prod.ext ?_ rfl
    rw [List.take_append_eq_append_take,
      show min d c.len - (c.buf.drop c.index).length = 0 by simp; omega,
      List.take_zero, List.append_nil]
  · refine Prod.ext ?_ rfl
    rw [List.take_append_eq_append_take, List.take_take]
    simp only [List.length_drop]
    congr 1
    · exact (List.take_of_length_le (by simp; omega)).symm
    · congr 1
      omega

theorem rot_getElem? (L : List Nat) (i m : Nat) (hi : i ≤ L.length)
    (hm : m < L.length) :
    (L.drop i ++ L.take i)[m]? = L[(i + m) % L.length]? := by
  rw [List.getElem?_append, mod_lt_two_mul (i + m) L.length (by omega)]
  simp only [List.getElem?_take, List.getElem?_drop, List.length_drop]
  by_cases h1 : m < L.length - i
  · rw [if_pos (by omega), if_pos (by omega)]
  · rw [if_neg (by omega), if_pos (by omega), if_neg (by omega)]
    congr 1
    omega

theorem rot_mod (L : List Nat) (i j : Nat) (hi : i < L.length) (hj : j ≤ L.length) :
    L.drop ((i + j) % L.length) ++ L.take ((i + j) % L.length) =
      (L.drop i ++ L.take i).drop j ++ (L.drop i ++ L.take i).take j := by
  have hR : (L.drop i ++ L.take i).length = L.length := by simp; omega
  apply List.ext_getElem?
  intro m
  by_cases hm : m < L.length
  · rw [rot_getElem? L ((i + j) % L.length) m
      (le_of_lt (Nat.mod_lt _ (by omega))) hm]
    rw [rot_getElem? (L.drop i ++ L.take i) j m (by omega) (by omega)]
    rw [rot_getElem? L i ((j + m) % (L.drop i ++ L.take i).length)
      (by omega) (by rw [hR]; exact Nat.mod_lt _ (by omega))]
    rw [hR]
    congr 1
    rw [Nat.mod_add_mod, Nat.add_mod_mod, Nat.add_assoc]
  · rw [List.getElem?_eq_none (by simp; omega),
      List.getElem?_eq_none (by simp; omega)]

theorem Consume_snd (c : CircularBuffer) (n : Nat) : (c.Consume n).snd = min n c.len := rfl

theorem Consume_len (c : CircularBuffer) (n : Nat) :
    ((c.Consume n).fst).len = c.len - min n c.len := by
  simp [CircularBuffer.Consume, CircularBuffer.addLen]

theorem Consume_index (c : CircularBuffer) (n : Nat) :
    ((c.Consume n).fst).index = (c.index + min n c.len) % c.buf.length := by
  simp [CircularBuffer.Consume, CircularBuffer.addLen]

theorem Consume_buf (c : CircularBuffer) (n : Nat) :
    ((c.Consume n).fst).buf = c.buf := by
  simp [CircularBuffer.Consume, CircularBuffer.addLen]

theorem Consume_closed (c : CircularBuffer) (n : Nat) :
    ((c.Consume n).fst).closed = c.closed := by
  simp [CircularBuffer.Consume, CircularBuffer.addLen]

theorem Consume_chClosed (c : CircularBuffer) (n : Nat) :
    ((c.Consume n).fst).chClosed = c.chClosed := by
  simp [CircularBuffer.Consume, CircularBuffer.addLen]

theorem Consume_chPending (c : CircularBuffer) (n : Nat) :
    ((c.Consume n).fst).chPending =
      if c.len - min n c.len ≠ 0 ∧ c.closed = false then true else c.chPending := by
  simp [CircularBuffer.Consume, CircularBuffer.addLen]

theorem content_Consume (c : CircularBuffer) (n : Nat) (hi : c.index < c.buf.length)
    (hk : c.len ≤ c.buf.length) :
    ((c.Consume n).fst).content = c.content.drop (min n c.len) := by
  simp only [CircularBuffer.Consume, CircularBuffer.addLen, CircularBuffer.content,
    CircularBuffer.rotView]
  rw [rot_mod c.buf c.index (min n c.len) hi (by omega)]
  rw [List.take_append_eq_append_take, List.drop_take]
  rw [show c.len - min n c.len -
      ((c.buf.drop c.index ++ c.buf.take c.index).drop (min n c.len)).length = 0 from by
    simp; omega]
  simp

theorem content_New (capacity : Nat) : (NewCircularBuffer capacity).content = [] := by
  simp [NewCircularBuffer, CircularBuffer.content, CircularBuffer.rotView]

theorem New_wf (capacity : Nat) (h : 0 < capacity) : (NewCircularBuffer capacity).wf := by
  simp [NewCircularBuffer, CircularBuffer.wf]
  omega

theorem wf_writeCore (c : CircularBuffer) (p : List Nat) (hw : c.wf)
    (hfit : c.len + p.length ≤ c.buf.length) : (c.writeCore p).wf := by
  obtain ⟨hi, hk⟩ := hw
  constructor
  · rw [writeCore_index, writeCore_buf_length]
    exact hi
  · rw [writeCore_len, writeCore_buf_length]
    omega

theorem wf_Consume (c : CircularBuffer) (n : Nat) (hw : c.wf) : ((c.Consume n).fst).wf := by
  obtain ⟨hi, hk⟩ := hw
  constructor
  · rw [Consume_index, Consume_buf]
    exact Nat.mod_lt _ (by omega)
  · rw [Consume_len, Consume_buf]
    omega

theorem Write_ok (c : CircularBuffer) (p : List Nat) (hcl : c.closed = false)
    (hfit : p.length ≤ c.buf.length - c.len) :
    c.Write p = (c.writeCore p, p.length, none) := by
  unfold CircularBuffer.Write
  rw [hcl, if_neg (by simp), if_neg (by omega)]

theorem Read_ok (c : CircularBuffer) (d : Nat) (hi : c.index < c.buf.length)
    (hk : c.len ≤ c.buf.length) (hne : ¬(c.len = 0 ∧ c.closed = true)) :
    c.Read d = ((c.Consume (min d c.len)).fst, c.content.take (min d c.len), none) := by
  unfold CircularBuffer.Read
  rw [Peek_ok c d hi hk hne]
  have hlen : (c.content.take (min d c.len)).length = min d c.len := by
    simp [CircularBuffer.content, CircularBuffer.rotView]
    omega
  simp only [hlen]

/-- C8: `Consume n` returns exactly `min n length`, reduces the length by
that amount, advances the cursor by it (circularly), drops exactly that many
bytes from the logical content, and a `Consume` beyond the length empties the
buffer.  `Consume` is a total function: it cannot fail. -/
theorem C8_consume_saturation (c : CircularBuffer) (n : Nat) (hw : c.wf) :
    (c.Consume n).snd = min n c.len ∧
    ((c.Consume n).fst).len = c.len - min n c.len ∧
    ((c.Consume n).fst).index = (c.index + min n c.len) % c.buf.length ∧
    ((c.Consume n).fst).content = c.content.drop (min n c.len) ∧
    (c.len < n → ((c.Consume n).fst).len = 0) := by
  refine ⟨Consume_snd c n, Consume_len c n, Consume_index c n,
    content_Consume c n hw.1 hw.2, ?_⟩
  intro h
  rw [Consume_len]
  omega

/-- Witness for C8: a buffer of capacity 4 holding 3 bytes, consumed by 5. -/
theorem C8_consume_saturation_witness :
    (((NewCircularBuffer 4).Write [5, 6, 7]).fst.Consume 5).snd =
      min 5 (((NewCircularBuffer 4).Write [5, 6, 7]).fst.len) ∧
    (((((NewCircularBuffer 4).Write [5, 6, 7]).fst.Consume 5)).fst).len =
      ((NewCircularBuffer 4).Write [5, 6, 7]).fst.len -
        min 5 (((NewCircularBuffer 4).Write [5, 6, 7]).fst.len) ∧
    (((((NewCircularBuffer 4).Write [5, 6, 7]).fst.Consume 5)).fst).index =
      (((NewCircularBuffer 4).Write [5, 6, 7]).fst.index +
        min 5 (((NewCircularBuffer 4).Write [5, 6, 7]).fst.len)) %
        ((NewCircularBuffer 4).Write [5, 6, 7]).fst.buf.length ∧
    (((((NewCircularBuffer 4).Write [5, 6, 7]).fst.Consume 5)).fst).content =
      (((NewCircularBuffer 4).Write [5, 6, 7]).fst.content).drop
        (min 5 (((NewCircularBuffer 4).Write [5, 6, 7]).fst.len)) ∧
    (((NewCircularBuffer 4).Write [5, 6, 7]).fst.len < 5 →
      (((((NewCircularBuffer 4).Write [5, 6, 7]).fst.Consume 5)).fst).len = 0) :=
  C8_consume_saturation (((NewCircularBuffer 4).Write [5, 6, 7]).fst) 5 (by decide)

/-- C6: after `Close`, `Write` fails with end-of-stream; `Peek`/`Read` fail
with end-of-stream exactly when the buffer is closed and empty; a closed
buffer still holding bytes keeps serving them to `Peek`/`Read`. -/
theorem C6_close_semantics (c : CircularBuffer) (d : Nat) (p : List Nat) (hw : c.wf) :
    (c.closed = true → c.Write p = (c, 0, some CBErr.eof)) ∧
    ((c.Peek d).snd = some CBErr.eof ↔ c.closed = true ∧ c.len = 0) ∧
    ((c.Read d).snd.snd = some CBErr.eof ↔ c.closed = true ∧ c.len = 0) ∧
    (c.closed = true → 0 < c.len →
      c.Peek d = (c.content.take (min d c.len), none) ∧
      c.Read d = ((c.Consume (min d c.len)).fst, c.content.take (min d c.len), none)) := by
  refine ⟨?_, ?_, ?_, ?_⟩
  · intro h
    unfold CircularBuffer.Write
    rw [if_pos h]
  · by_cases h : c.len = 0 ∧ c.closed = true
    · unfold CircularBuffer.Peek
      rw [if_pos h]
      simp [h.1, h.2]
    · rw [Peek_ok c d hw.1 hw.2 h]
      simp
      intro h1 h2
      exact h ⟨h2, h1⟩
  · by_cases h : c.len = 0 ∧ c.closed = true
    · unfold CircularBuffer.Read CircularBuffer.Peek
      rw [if_pos h]
      simp [h.1, h.2]
    · rw [Read_ok c d hw.1 hw.2 h]
      simp
      intro h1 h2
      exact h ⟨h2, h1⟩
  · intro hcl hlen
    have hne : ¬(c.len = 0 ∧ c.closed = true) := by
      intro h
      omega
    exact ⟨Peek_ok c d hw.1 hw.2 hne, Read_ok c d hw.1 hw.2 hne⟩

/-- Witness for C6: capacity-8 buffer holding two bytes, then closed. -/
theorem C6_close_semantics_witness :
    ((((NewCircularBuffer 8).Write [1, 2]).fst.Close).getD (NewCircularBuffer 0)).closed = true ∧
    ((((NewCircularBuffer 8).Write [1, 2]).fst.Close).getD (NewCircularBuffer 0)).Write [9] =
      (((((NewCircularBuffer 8).Write [1, 2]).fst.Close).getD (NewCircularBuffer 0)), 0,
        some CBErr.eof) ∧
    ((((NewCircularBuffer 8).Write [1, 2]).fst.Close).getD (NewCircularBuffer 0)).Peek 8 =
      ([1, 2], none) := by
  have h := C6_close_semantics
    ((((NewCircularBuffer 8).Write [1, 2]).fst.Close).getD (NewCircularBuffer 0)) 8 [9]
    (by decide)
  refine ⟨by decide, h.1 (by decide), ?_⟩
  have h4 := (h.2.2.2 (by decide) (by decide)).1
  rw [h4]
  decide

/-- C10: the first `Close` of a buffer whose channel is still open succeeds,
marking the buffer closed and closing the channel; any `Close` of a buffer
returned by a successful `Close` faults (Go panics closing a closed
channel). -/
theorem C10_close_single_shot (c : CircularBuffer) :
    (c.chClosed = false →
      c.Close = some { c with closed := true, chClosed := true }) ∧
    (∀ c2, c.Close = some c2 → c2.Close = none) := by
  constructor
  · intro h
    unfold CircularBuffer.Close
    rw [if_neg (by simp [h])]
  · intro c2 h
    unfold CircularBuffer.Close at h ⊢
    by_cases hc : c.chClosed
    · rw [if_pos hc] at h
      exact absurd h (by simp)
    · rw [if_neg hc] at h
      have : c2 = { c with closed := true, chClosed := true } := by
        injection h with h2
        exact h2.symm
      rw [this, if_pos rfl]

/-- Witness for C10: first `Close` of a fresh buffer succeeds, the second
faults. -/
theorem C10_close_single_shot_witness :
    (NewCircularBuffer 4).Close =
      some { NewCircularBuffer 4 with closed := true, chClosed := true } ∧
    (((NewCircularBuffer 4).Close).getD (NewCircularBuffer 0)).Close = none := by
  have h := C10_close_single_shot (NewCircularBuffer 4)
  refine ⟨h.1 (by decide), ?_⟩
  rw [h.1 (by decide)]
  exact h.2 _ (h.1 (by decide))

/-- C9 counterexample: `NewFilter` has no capacity parameter — its arguments
are the split function, the output callback and the interpreters — and the
ring buffer it allocates has the hardcoded capacity 4000 for two entirely
different constructions. -/
theorem C9_no_capacity_parameter :
    (filter.NewFilter JSONSplit (fun _ => ()) []).cbuf.buf.length = 4000 ∧
    (filter.NewFilter (fun _ _ => ⟨0, none, none⟩) (fun _ => ())
      [fun d fs => (d, fs)]).cbuf.buf.length = 4000 := by
  exact ⟨List.length_replicate 4000 0, List.length_replicate 4000 0⟩

/-- C9 amended: `NewFilter` takes a split function, an output callback and
interpreters; the buffer it allocates always has capacity 4000 (the capacity
is not configurable). -/
theorem C9_fixed_capacity (splitter : List Nat → Bool → SplitRes)
    (output : FieldSet → Unit) (terps : List Terp) :
    (filter.NewFilter splitter output terps).cbuf = NewCircularBuffer 4000 ∧
    (filter.NewFilter splitter output terps).cbuf.buf.length = 4000 ∧
    (filter.NewFilter splitter output terps).Interpreters = terps := by
  exact ⟨rfl, List.length_replicate 4000 0, rfl⟩

theorem content_length (c : CircularBuffer) (hk : c.len ≤ c.buf.length) :
    c.content.length = c.len := by
  simp [CircularBuffer.content, CircularBuffer.rotView]
  omega

theorem resize_ok (c : CircularBuffer) (minSize : Nat) (hi : c.index < c.buf.length)
    (hk : c.len ≤ c.buf.length) (hcl : c.closed = false) (hmin : c.len ≤ minSize) :
    c.resize minSize =
      ({ c with
         buf := c.content ++ List.replicate (growSize c.buf.length minSize - c.len) 0
       , index := 0 }, none) := by
  have hg : minSize ≤ growSize c.buf.length minSize := le_max_right _ _
  have htake : c.content.take (min (growSize c.buf.length minSize) c.len) = c.content := by
    rw [show min (growSize c.buf.length minSize) c.len = c.len by omega]
    exact List.take_of_length_le (by rw [content_length c hk])
  unfold CircularBuffer.resize
  rw [Peek_ok c _ hi hk (by simp [hcl]), htake]
  simp [content_length c hk]

theorem content_index_zero (c : CircularBuffer) (h : c.index = 0) :
    c.content = c.buf.take c.len := by
  unfold CircularBuffer.content CircularBuffer.rotView
  rw [h, List.drop_zero, List.take_zero, List.append_nil]

theorem take_append_of_length_eq (l r : List Nat) (k : Nat) (h : l.length = k) :
    (l ++ r).take k = l := by
  rw [List.take_append_eq_append_take, h, Nat.sub_self, List.take_zero, List.append_nil,
    List.take_of_length_le (le_of_eq h)]

theorem growSize_eq (cap m : Nat) :
    growSize cap m =
      if m > (if cap ≤ 8192 then cap * 2 else cap * 5 / 4)
      then m else (if cap ≤ 8192 then cap * 2 else cap * 5 / 4) := by
  unfold growSize
  by_cases h : cap ≤ 8192
  · rw [if_neg (by omega), if_pos h]
    split <;> [skip; skip] <;> omega
  · rw [if_pos (by omega), if_neg h]
    split <;> omega

/-- C7: when a write of `p` bytes exceeds the free room of the auto-growing
buffer (and the buffer is open), the buffer is reallocated to exactly double
its capacity when the old capacity is at most 8192 bytes, else to five
quarters of it (integer division), except that the requested size
`len p + len` is used when it is larger; the reallocation preserves the
buffered bytes in order and resets the cursor to 0, and the write then
succeeds, appending all of `p`. -/
theorem C7_auto_grow (c : CircularBuffer) (p : List Nat) (hw : c.wf)
    (hcl : c.closed = false) (hbig : p.length > c.buf.length - c.len) :
    (c.WriteGrow p).snd.fst = p.length ∧
    (c.WriteGrow p).snd.snd = none ∧
    ((c.WriteGrow p).fst).buf.length =
      (if p.length + c.len >
          (if c.buf.length ≤ 8192 then c.buf.length * 2 else c.buf.length * 5 / 4)
        then p.length + c.len
        else (if c.buf.length ≤ 8192 then c.buf.length * 2 else c.buf.length * 5 / 4)) ∧
    ((c.resize (p.length + c.len)).fst).index = 0 ∧
    ((c.resize (p.length + c.len)).fst).content = c.content ∧
    ((c.WriteGrow p).fst).content = c.content ++ p ∧
    ((c.WriteGrow p).fst).len = c.len + p.length := by
  obtain ⟨hi, hk⟩ := hw
  have hp1 : 1 ≤ p.length := by omega
  have hre := resize_ok c (p.length + c.len) hi hk hcl (by omega)
  have hg : p.length + c.len ≤ growSize c.buf.length (p.length + c.len) := le_max_right _ _
  have hclen : c.content.length = c.len := content_length c hk
  have hbl : (c.content ++
      List.replicate (growSize c.buf.length (p.length + c.len) - c.len) 0).length =
      growSize c.buf.length (p.length + c.len) := by
    rw [List.length_append, List.length_replicate, hclen]
    omega
  have hwg : c.WriteGrow p =
      (((c.resize (p.length + c.len)).fst).writeCore p, p.length, none) := by
    unfold CircularBuffer.WriteGrow
    rw [hcl, if_neg (by simp), if_pos (by omega), hre]
  have hc1 : ((c.resize (p.length + c.len)).fst).content = c.content := by
    rw [hre, content_index_zero _ rfl]
    exact take_append_of_length_eq _ _ _ hclen
  have hwf1 : ((c.resize (p.length + c.len)).fst).wf := by
    rw [hre]
    constructor
    · simp only
      rw [hbl]
      omega
    · simp only
      rw [hbl]
      omega
  have hfit1 : ((c.resize (p.length + c.len)).fst).len + p.length ≤
      ((c.resize (p.length + c.len)).fst).buf.length := by
    rw [hre]
    simp only
    rw [hbl]
    omega
  refine ⟨by rw [hwg], by rw [hwg], ?_, by rw [hre], hc1, ?_, ?_⟩
  · rw [hwg]
    simp only
    rw [writeCore_buf_length, hre]
    simp only
    rw [hbl, growSize_eq]
  · rw [hwg]
    simp only
    rw [content_writeCore _ p hwf1.1 hfit1, hc1]
  · rw [hwg]
    simp only
    rw [writeCore_len, hre]

/-- Witness for C7: a full capacity-4 buffer (3 bytes) grown by a 5-byte
write; the target 2·4 = 8 equals the requested size, all bytes preserved. -/
theorem C7_auto_grow_witness :
    (((NewCircularBuffer 4).Write [1, 2, 3]).fst.WriteGrow [9, 8, 7, 6, 5]).snd.fst = 5 ∧
    (((NewCircularBuffer 4).Write [1, 2, 3]).fst.WriteGrow [9, 8, 7, 6, 5]).snd.snd = none ∧
    ((((NewCircularBuffer 4).Write [1, 2, 3]).fst.WriteGrow [9, 8, 7, 6, 5]).fst).buf.length
      = 8 ∧
    ((((NewCircularBuffer 4).Write [1, 2, 3]).fst.resize
      (5 + ((NewCircularBuffer 4).Write [1, 2, 3]).fst.len)).fst).index = 0 ∧
    ((((NewCircularBuffer 4).Write [1, 2, 3]).fst.WriteGrow [9, 8, 7, 6, 5]).fst).content =
      [1, 2, 3, 9, 8, 7, 6, 5] := by
  have h := C7_auto_grow (((NewCircularBuffer 4).Write [1, 2, 3]).fst) [9, 8, 7, 6, 5]
    (by decide) (by decide) (by decide)
  refine ⟨h.1, h.2.1, ?_, h.2.2.2.1, ?_⟩
  · rw [h.2.2.1]
    decide
  · rw [h.2.2.2.2.2.1]
    decide

theorem runOps_invariant (ops : List BufOp) :
    ∀ c : CircularBuffer, c.wf → c.closed = false → (runOps c ops).ok = true →
      (runOps c ops).final.wf ∧ (runOps c ops).final.closed = false ∧
      (runOps c ops).reads ++ (runOps c ops).final.content =
        c.content ++ (runOps c ops).writes := by
  induction ops with
  | nil =>
    intro c hw hcl _
    simp only [runOps]
    exact ⟨hw, hcl, by simp⟩
  | cons op rest ih =>
    cases op with
    | write p =>
      intro c hw hcl hok
      by_cases hfit : p.length > c.buf.length - c.len
      · exfalso
        have hWbad : c.Write p = (c, 0, some CBErr.noRoom) := by
          unfold CircularBuffer.Write
          rw [hcl, if_neg (by simp), if_pos hfit]
        rcases hs : runOps c rest with ⟨f, rs, ws, okk⟩
        simp only [runOps, hWbad, hs] at hok
        simp at hok
      · have hW := Write_ok c p hcl (by omega)
        rcases hs : runOps (c.writeCore p) rest with ⟨f, rs, ws, okk⟩
        simp only [runOps, hW, hs] at hok ⊢
        simp only [decide_eq_true_eq, Bool.and_eq_true, decide_eq_true_iff] at hok
        have hrec := ih (c.writeCore p)
          (wf_writeCore c p hw (by have h2 := hw.2; omega))
          (by rw [writeCore_closed]; exact hcl) (by rw [hs]; simp [hok.2])
        rw [hs] at hrec
        refine ⟨hrec.1, hrec.2.1, ?_⟩
        simp only at hrec ⊢
        rw [hrec.2.2, content_writeCore c p hw.1 (by have h2 := hw.2; omega),
          List.append_assoc]
    | read d =>
      intro c hw hcl hok
      have hne : ¬(c.len = 0 ∧ c.closed = true) := by simp [hcl]
      have hR := Read_ok c d hw.1 hw.2 hne
      rcases hs : runOps ((c.Consume (min d c.len)).fst) rest with ⟨f, rs, ws, okk⟩
      simp only [runOps, hR, hs] at hok ⊢
      have hrec := ih ((c.Consume (min d c.len)).fst) (wf_Consume c _ hw)
        (by rw [Consume_closed]; exact hcl) (by rw [hs]; exact hok)
      rw [hs] at hrec
      refine ⟨hrec.1, hrec.2.1, ?_⟩
      simp only at hrec ⊢
      rw [List.append_assoc, hrec.2.2, content_Consume c _ hw.1 hw.2,
        show min (min d c.len) c.len = min d c.len by omega, ← List.append_assoc,
        List.take_append_drop]

/-- C4: running any interleaved `Write`/`Read` sequence against a fresh
buffer of positive capacity in which every write fits (`ok` — equivalently,
the occupancy never exceeds the capacity, since a write fails exactly when it
would), the bytes returned by the reads followed by the bytes still buffered
equal the bytes written, in order; in particular, once the buffer is drained
the reads are exactly the writes. -/
theorem C4_round_trip (C : Nat) (ops : List BufOp) (hC : 0 < C)
    (hok : (runOps (NewCircularBuffer C) ops).ok = true) :
    (runOps (NewCircularBuffer C) ops).reads ++
      (runOps (NewCircularBuffer C) ops).final.content =
      (runOps (NewCircularBuffer C) ops).writes ∧
    ((runOps (NewCircularBuffer C) ops).final.len = 0 →
      (runOps (NewCircularBuffer C) ops).reads =
        (runOps (NewCircularBuffer C) ops).writes) := by
  have h := runOps_invariant ops (NewCircularBuffer C) (New_wf C hC) rfl hok
  have h3 := h.2.2
  rw [content_New, List.nil_append] at h3
  refine ⟨h3, ?_⟩
  intro hlen
  have hemp : (runOps (NewCircularBuffer C) ops).final.content = [] := by
    unfold CircularBuffer.content
    rw [hlen, List.take_zero]
  rw [hemp, List.append_nil] at h3
  exact h3

/-- Witness for C4: capacity 4, a write, a partial read, a wrapping write,
and a draining read; reads concatenate to exactly the writes. -/
theorem C4_round_trip_witness :
    (runOps (NewCircularBuffer 4)
        [BufOp.write [1, 2, 3], BufOp.read 2, BufOp.write [4, 5, 6], BufOp.read 10]).reads ++
      (runOps (NewCircularBuffer 4)
        [BufOp.write [1, 2, 3], BufOp.read 2, BufOp.write [4, 5, 6],
          BufOp.read 10]).final.content =
      (runOps (NewCircularBuffer 4)
        [BufOp.write [1, 2, 3], BufOp.read 2, BufOp.write [4, 5, 6],
          BufOp.read 10]).writes ∧
    ((runOps (NewCircularBuffer 4)
        [BufOp.write [1, 2, 3], BufOp.read 2, BufOp.write [4, 5, 6],
          BufOp.read 10]).final.len = 0 →
      (runOps (NewCircularBuffer 4)
        [BufOp.write [1, 2, 3], BufOp.read 2, BufOp.write [4, 5, 6],
          BufOp.read 10]).reads =
        (runOps (NewCircularBuffer 4)
          [BufOp.write [1, 2, 3], BufOp.read 2, BufOp.write [4, 5, 6],
            BufOp.read 10]).writes) :=
  C4_round_trip 4
    [BufOp.write [1, 2, 3], BufOp.read 2, BufOp.write [4, 5, 6], BufOp.read 10]
    (by decide) (by decide)

/-!
## Tokenizer lemmas: the recursive matchers refine the depth-counting scan
-/

theorem matchQuote_bound (data : List Nat) (s j : Nat) (h : matchQuote data s = some j) :
    s ≤ j ∧ j < data.length := by
  unfold matchQuote at h
  cases hq : matchQuoteB data s with
  | none => rw [hq] at h; exact absurd h (by simp)
  | some jh =>
    rw [hq] at h
    simp at h
    rw [← h]
    exact jh.prop

theorem matchBrace_bound (data : List Nat) (s j : Nat) (h : matchBrace data s = some j) :
    s ≤ j ∧ j < data.length := by
  unfold matchBrace at h
  cases hq : matchBraceB data s with
  | none => rw [hq] at h; exact absurd h (by simp)
  | some jh =>
    rw [hq] at h
    simp at h
    rw [← h]
    exact jh.prop

theorem matchQuote_none (data : List Nat) (i : Nat) (h : data.length ≤ i) :
    matchQuote data i = none := by
  unfold matchQuote
  rw [matchQuoteB.eq_def, dif_neg (by omega)]
  rfl

theorem matchQuote_bslash (data : List Nat) (i : Nat) (h : i < data.length)
    (hb : data.getD i 0 = 92) : matchQuote data i = matchQuote data (i + 2) := by
  unfold matchQuote
  rw [matchQuoteB.eq_def, dif_pos h, if_pos hb]
  cases hq : matchQuoteB data (i + 2) <;> simp [hq]

theorem matchQuote_quote (data : List Nat) (i : Nat) (h : i < data.length)
    (hb : data.getD i 0 = 34) : matchQuote data i = some i := by
  unfold matchQuote
  rw [matchQuoteB.eq_def, dif_pos h, if_neg (by rw [hb]; decide), if_pos hb]
  rfl

theorem matchQuote_other (data : List Nat) (i : Nat) (h : i < data.length)
    (h92 : ¬data.getD i 0 = 92) (h34 : ¬data.getD i 0 = 34) :
    matchQuote data i = matchQuote data (i + 1) := by
  unfold matchQuote
  rw [matchQuoteB.eq_def, dif_pos h, if_neg h92, if_neg h34]
  cases hq : matchQuoteB data (i + 1) <;> simp [hq]

theorem matchBrace_none (data : List Nat) (i : Nat) (h : data.length ≤ i) :
    matchBrace data i = none := by
  unfold matchBrace
  rw [matchBraceB.eq_def, dif_neg (by omega)]
  rfl

theorem matchBrace_rbrace (data : List Nat) (i : Nat) (h : i < data.length)
    (hb : data.getD i 0 = 125) : matchBrace data i = some i := by
  unfold matchBrace
  rw [matchBraceB.eq_def, dif_pos h, if_pos hb]
  rfl

theorem matchBrace_quote (data : List Nat) (i : Nat) (h : i < data.length)
    (hb : data.getD i 0 = 34) :
    matchBrace data i = (matchQuote data (i + 1)).bind fun j => matchBrace data (j + 1) := by
  unfold matchBrace matchQuote
  rw [matchBraceB.eq_def, dif_pos h, if_neg (by rw [hb]; decide), if_pos hb]
  cases hq : matchQuoteB data (i + 1) with
  | none => simp [hq]
  | some jh =>
    cases hb2 : matchBraceB data (jh.val + 1) with
    | none => simp [hq, hb2]
    | some kh => simp [hq, hb2]

theorem matchBrace_lbrace (data : List Nat) (i : Nat) (h : i < data.length)
    (hb : data.getD i 0 = 123) :
    matchBrace data i = (matchBrace data (i + 1)).bind fun j => matchBrace data (j + 1) := by
  unfold matchBrace
  rw [matchBraceB.eq_def, dif_pos h, if_neg (by rw [hb]; decide),
    if_neg (by rw [hb]; decide), if_pos hb]
  cases hq : matchBraceB data (i + 1) with
  | none => simp [hq]
  | some jh =>
    cases hb2 : matchBraceB data (jh.val + 1) with
    | none => simp [hq, hb2]
    | some kh => simp [hq, hb2]

theorem matchBrace_other (data : List Nat) (i : Nat) (h : i < data.length)
    (h125 : ¬data.getD i 0 = 125) (h34 : ¬data.getD i 0 = 34)
    (h123 : ¬data.getD i 0 = 123) :
    matchBrace data i = matchBrace data (i + 1) := by
  unfold matchBrace
  rw [matchBraceB.eq_def, dif_pos h, if_neg h125, if_neg h34, if_neg h123]
  cases hq : matchBraceB data (i + 1) <;> simp [hq]

theorem braceChain_none (data : List Nat) (d i : Nat) (h : data.length ≤ i) :
    braceChain data d i = none := by
  cases d <;> simp [braceChain, matchBrace_none data i h]

theorem braceChain_bound (data : List Nat) (d : Nat) :
    ∀ i j, braceChain data d i = some j → i ≤ j ∧ j < data.length := by
  induction d with
  | zero => exact fun i j h => matchBrace_bound data i j h
  | succ d2 ih =>
    intro i j h
    simp only [braceChain] at h
    cases hm : matchBrace data i with
    | none => rw [hm] at h; exact absurd h (by simp)
    | some m =>
      rw [hm] at h
      simp only [Option.some_bind] at h
      have h1 := matchBrace_bound data i m hm
      have h2 := ih (m + 1) j h
      omega

theorem braceChain_head (data : List Nat) (i : Nat) (o : Option Nat) (g : Nat → Nat)
    (h : matchBrace data i = o.bind fun n => matchBrace data (g n)) (d : Nat) :
    braceChain data d i = o.bind fun n => braceChain data d (g n) := by
  cases d with
  | zero => simpa [braceChain] using h
  | succ d2 =>
    simp only [braceChain, h, Option.bind_assoc]

theorem braceChain_congr (data : List Nat) (i i2 : Nat)
    (h : matchBrace data i = matchBrace data i2) (d : Nat) :
    braceChain data d i = braceChain data d i2 := by
  cases d <;> simp [braceChain, h]

theorem specScan_string (data : List Nat) (i dep : Nat) :
    specScan (data.drop i) dep true false =
      (matchQuote data i).bind
        (fun j => (specScan (data.drop (j + 1)) dep false false).map
          (fun r => r + (j + 1 - i))) := by
  by_cases h : i < data.length
  · rw [List.drop_eq_getElem_cons h, ← List.getD_eq_getElem data 0 h]
    by_cases h92 : data.getD i 0 = 92
    · rw [matchQuote_bslash data i h h92]
      simp only [specScan, if_true, Bool.false_eq_true, if_false, if_pos h92]
      by_cases h1 : i + 1 < data.length
      · rw [List.drop_eq_getElem_cons h1]
        simp only [specScan, if_true]
        rw [specScan_string data (i + 2) dep]
        cases hq : matchQuote data (i + 2) with
        | none => simp [hq]
        | some j =>
          have hb := matchQuote_bound data (i + 2) j hq
          simp only [hq, Option.some_bind, Option.map_map]
          congr 1
          funext r
          simp only [Function.comp]
          omega
      · rw [show data.drop (i + 1) = [] from List.drop_eq_nil_of_le (by omega),
          matchQuote_none data (i + 2) (by omega)]
        rfl
    · by_cases h34 : data.getD i 0 = 34
      · rw [matchQuote_quote data i h h34]
        simp only [specScan, if_true, Bool.false_eq_true, if_false, if_neg h92, if_pos h34,
          Option.some_bind]
        congr 1
        funext r
        omega
      · rw [matchQuote_other data i h h92 h34]
        simp only [specScan, if_true, Bool.false_eq_true, if_false, if_neg h92, if_neg h34]
        rw [specScan_string data (i + 1) dep]
        cases hq : matchQuote data (i + 1) with
        | none => simp [hq]
        | some j =>
          have hb := matchQuote_bound data (i + 1) j hq
          simp only [hq, Option.some_bind, Option.map_map]
          congr 1
          funext r
          simp only [Function.comp]
          omega
  · rw [List.drop_eq_nil_of_le (by omega), matchQuote_none data i (by omega)]
    rfl
termination_by data.length - i
decreasing_by all_goals omega

theorem specScan_brace (data : List Nat) (i d : Nat) :
    specScan (data.drop i) (d + 1) false false =
      (braceChain data d i).map (fun j => j - i) := by
  by_cases h : i < data.length
  · rw [List.drop_eq_getElem_cons h, ← List.getD_eq_getElem data 0 h]
    by_cases h34 : data.getD i 0 = 34
    · simp only [specScan, Bool.false_eq_true, if_false, if_pos h34]
      rw [specScan_string data (i + 1) (d + 1),
        braceChain_head data i (matchQuote data (i + 1)) (fun j => j + 1)
          (matchBrace_quote data i h h34) d]
      cases hq : matchQuote data (i + 1) with
      | none => simp [hq]
      | some j =>
        have hb := matchQuote_bound data (i + 1) j hq
        simp only [hq, Option.some_bind]
        rw [specScan_brace data (j + 1) d]
        cases hbc : braceChain data d (j + 1) with
        | none => simp [hbc]
        | some k =>
          have hkb := braceChain_bound data d (j + 1) k hbc
          simp only [hbc, Option.map_map, Option.map_some', Function.comp]
          congr 1
          omega
    · by_cases h123 : data.getD i 0 = 123
      · simp only [specScan, Bool.false_eq_true, if_false, if_neg h34, if_pos h123]
        rw [specScan_brace data (i + 1) (d + 1)]
        have hchain : braceChain data d i = braceChain data (d + 1) (i + 1) := by
          rw [braceChain_head data i (matchBrace data (i + 1)) (fun j => j + 1)
            (matchBrace_lbrace data i h h123) d]
          simp [braceChain]
        rw [hchain]
        cases hbc : braceChain data (d + 1) (i + 1) with
        | none => simp
        | some k =>
          have hkb := braceChain_bound data (d + 1) (i + 1) k hbc
          simp only [Option.map_map, Option.map_some', Function.comp]
          congr 1
          omega
      · by_cases h125 : data.getD i 0 = 125
        · cases d with
          | zero =>
            simp only [specScan, Bool.false_eq_true, if_false, if_neg h34, if_neg h123,
              if_pos h125, braceChain,
              matchBrace_rbrace data i h h125, Nat.sub_self]
            rw [if_pos trivial]
            simp
          | succ d2 =>
            simp only [specScan, Bool.false_eq_true, if_false, if_neg h34, if_neg h123,
              if_pos h125, if_neg (by omega : ¬d2 + 1 + 1 = 1)]
            rw [show d2 + 1 + 1 - 1 = d2 + 1 from by omega, specScan_brace data (i + 1) d2]
            have hchain : braceChain data (d2 + 1) i = braceChain data d2 (i + 1) := by
              simp only [braceChain, matchBrace_rbrace data i h h125, Option.some_bind]
            rw [hchain]
            cases hbc : braceChain data d2 (i + 1) with
            | none => simp
            | some k =>
              have hkb := braceChain_bound data d2 (i + 1) k hbc
              simp only [Option.map_map, Option.map_some', Function.comp]
              congr 1
              omega
        · simp only [specScan, Bool.false_eq_true, if_false, if_neg h34, if_neg h123,
            if_neg h125]
          rw [specScan_brace data (i + 1) d,
            braceChain_congr data i (i + 1) (matchBrace_other data i h h125 h34 h123) d]
          cases hbc : braceChain data d (i + 1) with
          | none => simp
          | some k =>
            have hkb := braceChain_bound data d (i + 1) k hbc
            simp only [Option.map_map, Option.map_some', Function.comp]
            congr 1
            omega
  · rw [List.drop_eq_nil_of_le (by omega), braceChain_none data d i (by omega)]
    rfl
termination_by data.length - i
decreasing_by all_goals omega

theorem matchBrace_eq_spec (data : List Nat) (i : Nat) :
    matchBrace data i = (specScan (data.drop i) 1 false false).map (fun r => r + i) := by
  rw [show (1 : Nat) = 0 + 1 from rfl, specScan_brace data i 0]
  show matchBrace data i = ((matchBrace data i).map (fun j => j - i)).map (fun r => r + i)
  cases hm : matchBrace data i with
  | none => rfl
  | some j =>
    have hb := matchBrace_bound data i j hm
    simp only [Option.map_some']
    congr 1
    omega

theorem jsonSplit_eq_spec (data : List Nat) (atEOF : Bool) :
    JSONSplit data atEOF = JSONSplitSpec data atEOF := by
  unfold JSONSplit JSONSplitSpec
  by_cases hemp : atEOF = true ∧ data.length = 0
  · rw [if_pos hemp, show data.findIdx? (fun b => b = 123) = none from by
      rw [List.length_eq_zero.mp hemp.2]; rfl]
  · rw [if_neg hemp]
    cases hf : data.findIdx? (fun b => b = 123) with
    | none => rfl
    | some s =>
      simp only []
      rw [matchBrace_eq_spec data (s + 1)]
      cases hs : specScan (data.drop (s + 1)) 1 false false with
      | none => rfl
      | some rel =>
        simp only [Option.map_some']
        rw [show rel + (s + 1) = s + 1 + rel from by omega]

/-- C3: the object tokenizer agrees, on every window and `atEnd` flag, with
the specification's depth-aware scan — discard bytes before the first
opening brace, match nested braces, treat no byte of a double-quoted string
(backslash escaping the next byte) as a delimiter, return the token from the
brace to its match inclusive with the discarded prefix counted in the
advance, report "wait for more" on a short window unless `atEnd`, then a
malformed-token error.  In particular `junk{"a":1}more{"b":2}` yields
`{"a":1}` then `{"b":2}`, an unterminated `{"a":` errors exactly at
end-of-stream, and a quoted closing brace is not a delimiter. -/
theorem C3_object_split :
    (∀ data atEOF, JSONSplit data atEOF = JSONSplitSpec data atEOF) ∧
    JSONSplit exJunk false = ⟨11, some [123, 34, 97, 34, 58, 49, 125], none⟩ ∧
    JSONSplit (exJunk.drop 11) false = ⟨11, some [123, 34, 98, 34, 58, 50, 125], none⟩ ∧
    JSONSplit exIncomplete true = ⟨0, none, some "incomplete JSON object"⟩ ∧
    JSONSplit exIncomplete false = ⟨0, none, none⟩ ∧
    JSONSplit exQuotedBrace false = ⟨9, some exQuotedBrace, none⟩ := by
  refine ⟨jsonSplit_eq_spec, ?_, ?_, ?_, ?_, ?_⟩ <;> rw [jsonSplit_eq_spec] <;> decide

/-!
## Scanner step lemmas: symbolic execution of one `Scan`
-/

theorem scanGo_drain (split : List Nat → Bool → SplitRes) (sc : ScanState)
    (cb : CircularBuffer) (hsb : sc.sbuf = []) (hse : sc.serr = none) (hlen : 0 < cb.len) :
    scanGo split sc cb =
      scanGo split { sc with sbuf := (cb.Peek cb.len).fst } (cbDrainAll cb) := by
  rw [scanGo.eq_def, if_neg (by simp [hsb, hse]), dif_pos hlen]
  congr 1
  simp [hsb]

theorem scanGo_emptyEof (split : List Nat → Bool → SplitRes) (sc : ScanState)
    (cb : CircularBuffer) (hsb : sc.sbuf = []) (hse : sc.serr = none)
    (hlen : cb.len = 0) (hcl : cb.closed = true) :
    scanGo split sc cb = scanGo split { sc with serr := some ScErr.eof } cb := by
  rw [scanGo.eq_def, if_neg (by simp [hsb, hse]), dif_neg (by omega), if_pos hcl]

theorem scanGo_token (split : List Nat → Bool → SplitRes) (sc : ScanState)
    (cb : CircularBuffer) (hse : sc.serr = none) (adv : Nat) (t : List Nat)
    (hsp : split sc.sbuf false = ⟨adv, some t, none⟩) (hadv : adv ≤ sc.sbuf.length)
    (hne : 0 < sc.sbuf.length) :
    scanGo split sc cb = (true, { sc with sbuf := sc.sbuf.drop adv, stoken := t }, cb) := by
  rw [scanGo.eq_def, if_pos (Or.inl hne), hse]
  rw [show (none : Option ScErr).isSome = false from rfl, hsp]
  simp only []
  rw [if_neg (by omega)]

theorem scanGo_eofStep (split : List Nat → Bool → SplitRes) (sc : ScanState)
    (cb : CircularBuffer) (hse : sc.serr = none) (adv : Nat)
    (hsp : split sc.sbuf false = ⟨adv, none, none⟩) (hadv : adv ≤ sc.sbuf.length)
    (hne : 0 < sc.sbuf.length) (hlen : cb.len = 0) (hcl : cb.closed = true) :
    scanGo split sc cb =
      scanGo split { sc with sbuf := sc.sbuf.drop adv, stoken := [], serr := some ScErr.eof }
        cb := by
  rw [scanGo.eq_def, if_pos (Or.inl hne), hse]
  rw [show (none : Option ScErr).isSome = false from rfl, hsp]
  simp only []
  rw [if_neg (by omega), if_neg (by simp), dif_neg (by omega), if_pos hcl]

theorem scanGo_splitErr (split : List Nat → Bool → SplitRes) (sc : ScanState)
    (cb : CircularBuffer) (hse : sc.serr.isSome = true) (a : Nat) (t : Option (List Nat))
    (m : String) (hsp : split sc.sbuf true = ⟨a, t, some m⟩) :
    scanGo split sc cb =
      (false, { sc with serr := setErr sc.serr (ScErr.splitErr m) }, cb) := by
  rw [scanGo.eq_def, if_pos (Or.inr hse), hse, hsp]

theorem scanGo_shutdown (split : List Nat → Bool → SplitRes) (sc : ScanState)
    (cb : CircularBuffer) (hse : sc.serr.isSome = true) (adv : Nat)
    (hsp : split sc.sbuf true = ⟨adv, none, none⟩) (hadv : adv ≤ sc.sbuf.length) :
    scanGo split sc cb = (false, { sc with sbuf := [], stoken := [] }, cb) := by
  rw [scanGo.eq_def, if_pos (Or.inr hse), hse, hsp]
  simp only []
  rw [if_neg (by omega), if_pos trivial]

/-!
## C1: the consumer loop has no exit path
-/

theorem c1_scan :
    scanGo JSONSplit initScanState { c1CB with chPending := false } =
      (false, { sbuf := [], stoken := [], serr := some ScErr.eof },
        { c1CB with chPending := false }) := by
  rw [scanGo_emptyEof JSONSplit initScanState { c1CB with chPending := false } rfl rfl rfl
    rfl]
  rw [scanGo_shutdown JSONSplit { initScanState with serr := some ScErr.eof } _ rfl 0
    (by rw [jsonSplit_eq_spec]; decide) (by simp)]

theorem engineStep_go (split : List Nat → Bool → SplitRes) (e : Eng)
    (h : e.cb.chPending = true ∨ e.cb.chClosed = true) :
    engineStep split e =
      some ({ e with
              cb := (scanGo split e.sc { e.cb with chPending := false }).snd.snd
            , sc := (scanGo split e.sc { e.cb with chPending := false }).snd.fst },
        (if (scanGo split e.sc { e.cb with chPending := false }).fst = false then
          match scErrMsg (scanGo split e.sc { e.cb with chPending := false }).snd.fst.serr with
          | some m => [diagFS m]
          | none => []
        else []) ++
        [(runTerps e.terps
          (scanGo split e.sc { e.cb with chPending := false }).snd.fst.stoken []).snd]) := by
  unfold engineStep
  rw [if_pos h]

theorem c1_step1 :
    engineStep JSONSplit c1Eng0 =
      some ({ terps := [], cb := { c1CB with chPending := false },
              sc := { sbuf := [], stoken := [], serr := some ScErr.eof } }, [[]]) := by
  rw [engineStep_go JSONSplit c1Eng0 (Or.inr rfl),
    show c1Eng0.sc = initScanState from rfl, show c1Eng0.cb = c1CB from rfl, c1_scan]
  rfl

theorem c1_step2 :
    engineStep JSONSplit
      { terps := [], cb := { c1CB with chPending := false },
        sc := { sbuf := [], stoken := [], serr := some ScErr.eof } } =
      some ({ terps := [], cb := { c1CB with chPending := false },
              sc := { sbuf := [], stoken := [], serr := some ScErr.eof } }, [[]]) := by
  rw [engineStep_go JSONSplit
    { terps := [], cb := { c1CB with chPending := false },
      sc := { sbuf := [], stoken := [], serr := some ScErr.eof } } (Or.inr rfl)]
  rw [scanGo_shutdown JSONSplit { sbuf := [], stoken := [], serr := some ScErr.eof } _ rfl 0
    (by rw [jsonSplit_eq_spec]; decide) (by simp)]
  rfl

/-- C1: the background task does not terminate when the buffer is closed and
drained.  The loop body has no exit statement: with the notification channel
closed every receive returns immediately, so from the closed-and-drained
state the consumer performs arbitrarily many further iterations, invoking the
sink with an empty FieldSet on every one of them, instead of exiting. -/
theorem C1_loop_never_exits (n : Nat) :
    ∃ e : Eng, engineRun JSONSplit n c1Eng0 =
      some (e, List.replicate n ([] : FieldSet)) := by
  have hfix : ∀ m : Nat,
      engineRun JSONSplit m
        { terps := [], cb := { c1CB with chPending := false },
          sc := { sbuf := [], stoken := [], serr := some ScErr.eof } } =
      some ({ terps := [], cb := { c1CB with chPending := false },
              sc := { sbuf := [], stoken := [], serr := some ScErr.eof } },
        List.replicate m ([] : FieldSet)) := by
    intro m
    induction m with
    | zero => rfl
    | succ k ih =>
      simp only [engineRun, c1_step2, ih]
      simp [List.replicate_succ]
  cases n with
  | zero => exact ⟨c1Eng0, rfl⟩
  | succ k =>
    refine ⟨{ terps := [], cb := { c1CB with chPending := false },
              sc := { sbuf := [], stoken := [], serr := some ScErr.eof } }, ?_⟩
    simp only [engineRun, c1_step1, hfix k]
    simp [List.replicate_succ]

/-!
## C5: one `Scan` per wake-up strands a completed token
-/



theorem setPending_len (c : CircularBuffer) :
    ({ c with chPending := false } : CircularBuffer).len = c.len := rfl

theorem setPending_content (c : CircularBuffer) :
    ({ c with chPending := false } : CircularBuffer).content = c.content := rfl

theorem setPending_index (c : CircularBuffer) :
    ({ c with chPending := false } : CircularBuffer).index = c.index := rfl

theorem setPending_buf (c : CircularBuffer) :
    ({ c with chPending := false } : CircularBuffer).buf = c.buf := rfl

theorem setPending_closed (c : CircularBuffer) :
    ({ c with chPending := false } : CircularBuffer).closed = c.closed := rfl

theorem setPending_chClosed (c : CircularBuffer) :
    ({ c with chPending := false } : CircularBuffer).chClosed = c.chClosed := rfl

theorem c5cb_facts :
    c5Eng0.cb.len = 14 ∧ c5Eng0.cb.closed = false ∧ c5Eng0.cb.chPending = true ∧
    c5Eng0.cb.chClosed = false ∧ c5Eng0.cb.index < c5Eng0.cb.buf.length ∧
    c5Eng0.cb.len ≤ c5Eng0.cb.buf.length ∧ c5Eng0.cb.content = exTwoObjs := by
  have h4000 : (NewCircularBuffer 4000).buf.length = 4000 := List.length_replicate 4000 0
  have hlen14 : exTwoObjs.length = 14 := rfl
  have hfit : exTwoObjs.length ≤ (NewCircularBuffer 4000).buf.length -
      (NewCircularBuffer 4000).len := by
    rw [h4000, hlen14, show (NewCircularBuffer 4000).len = 0 from rfl]
    omega
  have hfit2 : (NewCircularBuffer 4000).len + exTwoObjs.length ≤
      (NewCircularBuffer 4000).buf.length := by
    rw [h4000, hlen14, show (NewCircularBuffer 4000).len = 0 from rfl]
    omega
  have hi0 : (NewCircularBuffer 4000).index < (NewCircularBuffer 4000).buf.length := by
    rw [h4000]
    show (0 : Nat) < 4000
    omega
  have hW := Write_ok (NewCircularBuffer 4000) exTwoObjs rfl hfit
  have hcb : c5Eng0.cb = (NewCircularBuffer 4000).writeCore exTwoObjs := by
    simp only [c5Eng0]
    rw [hW]
  rw [hcb, writeCore_len, writeCore_closed, writeCore_chPending, writeCore_chClosed,
    writeCore_index, writeCore_buf_length,
    content_writeCore (NewCircularBuffer 4000) exTwoObjs hi0 hfit2, content_New, h4000]
  refine ⟨?_, rfl, ?_, rfl, hi0.trans_eq h4000, ?_, by simp⟩
  · show (0 : Nat) + exTwoObjs.length = 14
    rw [hlen14]
  · show (if (0 : Nat) + exTwoObjs.length ≠ 0 ∧ false = false then true else false) = true
    rw [hlen14]
    decide
  · show (0 : Nat) + exTwoObjs.length ≤ 4000
    rw [hlen14]
    omega

theorem c5_scan :
    scanGo JSONSplit initScanState { c5Eng0.cb with chPending := false } =
      (true,
        { sbuf := [123, 34, 98, 34, 58, 50, 125],
          stoken := [123, 34, 97, 34, 58, 49, 125], serr := none },
        cbDrainAll { c5Eng0.cb with chPending := false }) := by
  obtain ⟨h1, h2, h3, h4, h5, h6, h7⟩ := c5cb_facts
  have hlup := setPending_len c5Eng0.cb
  have h5' : ({ c5Eng0.cb with chPending := false } : CircularBuffer).index <
      ({ c5Eng0.cb with chPending := false } : CircularBuffer).buf.length := by
    rw [setPending_index c5Eng0.cb, setPending_buf c5Eng0.cb]
    exact h5
  have h6' : ({ c5Eng0.cb with chPending := false } : CircularBuffer).len ≤
      ({ c5Eng0.cb with chPending := false } : CircularBuffer).buf.length := by
    rw [setPending_len c5Eng0.cb, setPending_buf c5Eng0.cb]
    exact h6
  have hne' : ¬(({ c5Eng0.cb with chPending := false } : CircularBuffer).len = 0 ∧
      ({ c5Eng0.cb with chPending := false } : CircularBuffer).closed = true) := by
    rw [setPending_len c5Eng0.cb, h1]
    exact fun hcon => absurd hcon.1 (by decide)
  have hpeek : ({ c5Eng0.cb with chPending := false } : CircularBuffer).Peek
      (({ c5Eng0.cb with chPending := false } : CircularBuffer).len) = (exTwoObjs, none) := by
    rw [Peek_ok { c5Eng0.cb with chPending := false }
      (({ c5Eng0.cb with chPending := false } : CircularBuffer).len) h5' h6' hne']
    rw [setPending_content c5Eng0.cb, h7, hlup, h1]
    decide
  rw [scanGo_drain JSONSplit initScanState { c5Eng0.cb with chPending := false } rfl rfl
    (by rw [hlup, h1]; omega)]
  rw [hpeek]
  rw [scanGo_token JSONSplit { initScanState with sbuf := (exTwoObjs, none).fst } _ rfl 7
    [123, 34, 97, 34, 58, 49, 125] (by rw [jsonSplit_eq_spec]; decide) (by decide)
    (by decide)]
  refine Prod.ext rfl (Prod.ext ?_ rfl)
  decide

theorem c5_step1 :
    engineStep JSONSplit c5Eng0 =
      some ({ terps := [], cb := cbDrainAll { c5Eng0.cb with chPending := false },
              sc := { sbuf := [123, 34, 98, 34, 58, 50, 125],
                      stoken := [123, 34, 97, 34, 58, 49, 125], serr := none } }, [[]]) := by
  rw [engineStep_go JSONSplit c5Eng0 (Or.inl c5cb_facts.2.2.1),
    show c5Eng0.sc = initScanState from rfl, c5_scan]
  rfl

theorem c5_blocked :
    engineStep JSONSplit
      { terps := [], cb := cbDrainAll { c5Eng0.cb with chPending := false },
        sc := { sbuf := [123, 34, 98, 34, 58, 50, 125],
                stoken := [123, 34, 97, 34, 58, 49, 125], serr := none } } = none := by
  have hp : (cbDrainAll { c5Eng0.cb with chPending := false }).chPending = false := by
    unfold cbDrainAll
    rw [Consume_chPending]
    simp
  have hc : (cbDrainAll { c5Eng0.cb with chPending := false }).chClosed = false := by
    unfold cbDrainAll
    rw [Consume_chClosed, setPending_chClosed c5Eng0.cb]
    exact c5cb_facts.2.2.2.1
  unfold engineStep
  rw [if_neg (by simp [hp, hc])]

/-- C5: the consumer loop performs exactly one `scanner.Scan` per wake-up,
not a drain-until-wait loop.  After the single write `{"a":1}{"b":2}` (one
coalesced pulse), one wake-up delivers only the first object's record to the
sink; the engine then blocks on the channel although the complete second
object `{"b":2}` is stranded in the scanner's window, where the tokenizer
would immediately yield it. -/
theorem C5_second_token_stranded :
    engineRun JSONSplit 1 c5Eng0 =
      some ({ terps := [], cb := cbDrainAll { c5Eng0.cb with chPending := false },
              sc := { sbuf := [123, 34, 98, 34, 58, 50, 125],
                      stoken := [123, 34, 97, 34, 58, 49, 125], serr := none } }, [[]]) ∧
    engineStep JSONSplit
      { terps := [], cb := cbDrainAll { c5Eng0.cb with chPending := false },
        sc := { sbuf := [123, 34, 98, 34, 58, 50, 125],
                stoken := [123, 34, 97, 34, 58, 49, 125], serr := none } } = none ∧
    JSONSplit [123, 34, 98, 34, 58, 50, 125] false =
      ⟨7, some [123, 34, 98, 34, 58, 50, 125], none⟩ := by
  refine ⟨?_, c5_blocked, by rw [jsonSplit_eq_spec]; decide⟩
  simp only [engineRun, c5_step1]
  rfl

/-!
## C2: the malformed-token error path
-/

theorem setClosed_len (c : CircularBuffer) :
    ({ c with closed := true, chClosed := true } : CircularBuffer).len = c.len := rfl

theorem setClosed_closed (c : CircularBuffer) :
    ({ c with closed := true, chClosed := true } : CircularBuffer).closed = true := rfl

theorem setClosed_chPending (c : CircularBuffer) :
    ({ c with closed := true, chClosed := true } : CircularBuffer).chPending =
      c.chPending := rfl

theorem setClosed_chClosed (c : CircularBuffer) :
    ({ c with closed := true, chClosed := true } : CircularBuffer).chClosed = true := rfl

theorem setClosed_index (c : CircularBuffer) :
    ({ c with closed := true, chClosed := true } : CircularBuffer).index = c.index := rfl

theorem setClosed_buf (c : CircularBuffer) :
    ({ c with closed := true, chClosed := true } : CircularBuffer).buf = c.buf := rfl

theorem setClosed_content (c : CircularBuffer) :
    ({ c with closed := true, chClosed := true } : CircularBuffer).content = c.content := rfl

theorem jsonSplit_false_no_err (d : List Nat) : (JSONSplit d false).err = none := by
  unfold JSONSplit
  rw [if_neg (by simp)]
  split
  · rfl
  · split
    · rfl
    · rfl

theorem c2cb_facts :
    c2CB.len = 5 ∧ c2CB.closed = true ∧ c2CB.chPending = true ∧ c2CB.chClosed = true ∧
    c2CB.index < c2CB.buf.length ∧ c2CB.len ≤ c2CB.buf.length ∧
    c2CB.content = exIncomplete := by
  have h4000 : (NewCircularBuffer 4000).buf.length = 4000 := List.length_replicate 4000 0
  have hlen5 : exIncomplete.length = 5 := rfl
  have hfit : exIncomplete.length ≤ (NewCircularBuffer 4000).buf.length -
      (NewCircularBuffer 4000).len := by
    rw [h4000, hlen5, show (NewCircularBuffer 4000).len = 0 from rfl]
    omega
  have hfit2 : (NewCircularBuffer 4000).len + exIncomplete.length ≤
      (NewCircularBuffer 4000).buf.length := by
    rw [h4000, hlen5, show (NewCircularBuffer 4000).len = 0 from rfl]
    omega
  have hi0 : (NewCircularBuffer 4000).index < (NewCircularBuffer 4000).buf.length := by
    rw [h4000]
    show (0 : Nat) < 4000
    omega
  have hW := Write_ok (NewCircularBuffer 4000) exIncomplete rfl hfit
  have hClose : ((NewCircularBuffer 4000).writeCore exIncomplete).Close =
      some { (NewCircularBuffer 4000).writeCore exIncomplete with
             closed := true, chClosed := true } := by
    unfold CircularBuffer.Close
    rw [writeCore_chClosed]
    rfl
  have hc2 : c2CB = { (NewCircularBuffer 4000).writeCore exIncomplete with
      closed := true, chClosed := true } := by
    simp only [c2CB]
    rw [hW, hClose]
    rfl
  rw [hc2, setClosed_len, setClosed_closed, setClosed_chPending, setClosed_chClosed,
    setClosed_index, setClosed_buf, setClosed_content, writeCore_len, writeCore_chPending,
    writeCore_index, writeCore_buf_length,
    content_writeCore (NewCircularBuffer 4000) exIncomplete hi0 hfit2, content_New, h4000]
  refine ⟨?_, rfl, ?_, rfl, hi0.trans_eq h4000, ?_, by simp⟩
  · show (0 : Nat) + exIncomplete.length = 5
    rw [hlen5]
  · show (if (0 : Nat) + exIncomplete.length ≠ 0 ∧ false = false then true else false) = true
    rw [hlen5]
    decide
  · show (0 : Nat) + exIncomplete.length ≤ 4000
    rw [hlen5]
    omega

theorem c2_scan :
    scanGo JSONSplit initScanState { c2CB with chPending := false } =
      (false,
        { sbuf := exIncomplete, stoken := [],
          serr := some (ScErr.splitErr "incomplete JSON object") },
        cbDrainAll { c2CB with chPending := false }) := by
  obtain ⟨h1, h2, h3, h4, h5, h6, h7⟩ := c2cb_facts
  have hlup := setPending_len c2CB
  have h5' : ({ c2CB with chPending := false } : CircularBuffer).index <
      ({ c2CB with chPending := false } : CircularBuffer).buf.length := by
    rw [setPending_index c2CB, setPending_buf c2CB]
    exact h5
  have h6' : ({ c2CB with chPending := false } : CircularBuffer).len ≤
      ({ c2CB with chPending := false } : CircularBuffer).buf.length := by
    rw [setPending_len c2CB, setPending_buf c2CB]
    exact h6
  have hne' : ¬(({ c2CB with chPending := false } : CircularBuffer).len = 0 ∧
      ({ c2CB with chPending := false } : CircularBuffer).closed = true) := by
    rw [setPending_len c2CB, h1]
    exact fun hcon => absurd hcon.1 (by decide)
  have hpeek : ({ c2CB with chPending := false } : CircularBuffer).Peek
      (({ c2CB with chPending := false } : CircularBuffer).len) = (exIncomplete, none) := by
    rw [Peek_ok { c2CB with chPending := false }
      (({ c2CB with chPending := false } : CircularBuffer).len) h5' h6' hne']
    rw [setPending_content c2CB, h7, hlup, h1]
    decide
  have hdlen : (cbDrainAll { c2CB with chPending := false }).len = 0 := by
    unfold cbDrainAll
    rw [Consume_len, hlup, h1]
    decide
  have hdcl : (cbDrainAll { c2CB with chPending := false }).closed = true := by
    unfold cbDrainAll
    rw [Consume_closed, setPending_closed c2CB]
    exact h2
  rw [scanGo_drain JSONSplit initScanState { c2CB with chPending := false } rfl rfl
    (by rw [hlup, h1]; omega)]
  rw [hpeek]
  rw [scanGo_eofStep JSONSplit { initScanState with sbuf := (exIncomplete, none).fst }
    (cbDrainAll { c2CB with chPending := false }) rfl 0
    (by rw [jsonSplit_eq_spec]; decide) (by decide) (by decide) hdlen hdcl]
  show scanGo JSONSplit { sbuf := exIncomplete, stoken := [], serr := some ScErr.eof }
      (cbDrainAll { c2CB with chPending := false }) =
    (false,
      { sbuf := exIncomplete, stoken := [],
        serr := some (ScErr.splitErr "incomplete JSON object") },
      cbDrainAll { c2CB with chPending := false })
  rw [scanGo_splitErr JSONSplit { sbuf := exIncomplete, stoken := [], serr := some ScErr.eof }
    (cbDrainAll { c2CB with chPending := false }) rfl 0 none "incomplete JSON object"
    (by rw [jsonSplit_eq_spec]; decide)]
  refine Prod.ext rfl (Prod.ext ?_ rfl)
  decide

theorem c2_step1 :
    engineStep JSONSplit c2Eng0 = some (c2E1, [diagFS "incomplete JSON object", []]) := by
  have hcb : c2Eng0.cb = c2CB := by simp only [c2Eng0]
  have hsc : c2Eng0.sc = initScanState := by simp only [c2Eng0]
  rw [engineStep_go JSONSplit c2Eng0 (Or.inr (by rw [hcb]; exact c2cb_facts.2.2.2.1))]
  rw [hsc, hcb, c2_scan]
  rfl

theorem c2_step2 :
    engineStep JSONSplit c2E1 = some (c2E2, [diagFS "incomplete JSON object", []]) := by
  have hcc : c2E1.cb.chClosed = true := by
    rw [show c2E1.cb = cbDrainAll { c2CB with chPending := false } by simp only [c2E1]]
    unfold cbDrainAll
    rw [Consume_chClosed, setPending_chClosed c2CB]
    exact c2cb_facts.2.2.2.1
  rw [engineStep_go JSONSplit c2E1 (Or.inr hcc)]
  rw [scanGo_splitErr JSONSplit c2E1.sc { c2E1.cb with chPending := false } rfl 0 none
    "incomplete JSON object" (by rw [jsonSplit_eq_spec]; decide)]
  rfl

theorem scanGo_errInv (split : List Nat → Bool → SplitRes)
    (hP : ∀ d m, (split d false).err = some m → (split d true).err = some m)
    (sc : ScanState) (cb : CircularBuffer) (hinv : ErrInv split sc) :
    ErrInv split (scanGo split sc cb).snd.fst ∧
    (∀ msg, (scanGo split sc cb).snd.fst.serr = some (ScErr.splitErr msg) →
      (scanGo split sc cb).fst = false) := by
  rw [scanGo.eq_def]
  by_cases h1 : 0 < sc.sbuf.length ∨ sc.serr.isSome = true
  · rw [if_pos h1]
    rcases hsp : split sc.sbuf sc.serr.isSome with ⟨adv, tok, err⟩
    simp only []
    cases err with
    | some m =>
      simp only []
      constructor
      · intro msg hmsg
        simp only [] at hmsg ⊢
        rcases hserr : sc.serr with _ | e
        · rw [hserr] at hmsg
          simp only [setErr] at hmsg
          injection hmsg with h2
          injection h2 with h3
          subst h3
          rw [hserr] at hsp
          have hfe : (split sc.sbuf false).err = some m := by
            rw [show (false : Bool) = (Option.none : Option ScErr).isSome from rfl, hsp]
          exact hP sc.sbuf m hfe
        · rw [hserr] at hmsg hsp
          cases e with
          | eof =>
            simp only [setErr] at hmsg
            injection hmsg with h2
            injection h2 with h3
            subst h3
            rw [show (Option.some ScErr.eof).isSome = true from rfl] at hsp
            rw [hsp]
          | noProgress =>
            simp only [setErr] at hmsg
            exact absurd hmsg (by simp)
          | badAdvance =>
            simp only [setErr] at hmsg
            exact absurd hmsg (by simp)
          | splitErr m0 =>
            simp only [setErr] at hmsg
            injection hmsg with h2
            injection h2 with h3
            subst h3
            exact hinv m0 hserr
      · intro msg hmsg
        trivial
    | none =>
      simp only []
      by_cases hadv : adv > sc.sbuf.length
      · rw [if_pos hadv]
        constructor
        · intro msg hmsg
          simp only [] at hmsg ⊢
          rcases hserr : sc.serr with _ | e
          · rw [hserr] at hmsg
            simp only [setErr] at hmsg
            exact absurd hmsg (by simp)
          · rw [hserr] at hmsg
            cases e with
            | eof =>
              simp only [setErr] at hmsg
              exact absurd hmsg (by simp)
            | noProgress =>
              simp only [setErr] at hmsg
              exact absurd hmsg (by simp)
            | badAdvance =>
              simp only [setErr] at hmsg
              exact absurd hmsg (by simp)
            | splitErr m0 =>
              simp only [setErr] at hmsg
              injection hmsg with h2
              injection h2 with h3
              subst h3
              exact hinv m0 hserr
        · intro msg hmsg
          trivial
      · rw [if_neg hadv]
        cases tok with
        | some t =>
          simp only []
          constructor
          · intro msg hmsg
            simp only [] at hmsg
            have h2 := hinv msg hmsg
            rw [show sc.serr.isSome = true from by rw [hmsg]; rfl] at hsp
            rw [hsp] at h2
            simp at h2
          · intro msg hmsg
            have h2 := hinv msg hmsg
            rw [show sc.serr.isSome = true from by rw [hmsg]; rfl] at hsp
            rw [hsp] at h2
            simp at h2
        | none =>
          simp only []
          by_cases hse : sc.serr.isSome = true
          · rw [if_pos hse]
            constructor
            · intro msg hmsg
              simp only [] at hmsg
              have h2 := hinv msg hmsg
              rw [hse] at hsp
              rw [hsp] at h2
              simp at h2
            · intro msg hmsg
              trivial
          · rw [if_neg hse]
            have hserr : sc.serr = none := by
              cases hx : sc.serr with
              | none => rfl
              | some v => rw [hx] at hse; exact absurd rfl hse
            by_cases hlen : 0 < cb.len
            · rw [dif_pos hlen]
              exact scanGo_errInv split hP _ _
                (fun msg hmsg => by
                  simp only [] at hmsg
                  rw [hserr] at hmsg
                  exact absurd hmsg (by simp))
            · rw [dif_neg hlen]
              by_cases hcl : cb.closed = true
              · rw [if_pos hcl]
                exact scanGo_errInv split hP _ _
                  (fun msg hmsg => by
                    simp only [] at hmsg
                    exact absurd hmsg (by simp))
              · rw [if_neg hcl]
                exact scanGo_errInv split hP _ _
                  (fun msg hmsg => by
                    simp only [] at hmsg
                    exact absurd hmsg (by simp))
  · rw [if_neg h1]
    have hserr : sc.serr = none := by
      rcases hx : sc.serr with _ | v
      · rfl
      · exact absurd (Or.inr (by rw [hx]; rfl)) h1
    by_cases hlen : 0 < cb.len
    · rw [dif_pos hlen]
      exact scanGo_errInv split hP _ _
        (fun msg hmsg => by
          simp only [] at hmsg
          rw [hserr] at hmsg
          exact absurd hmsg (by simp))
    · rw [dif_neg hlen]
      by_cases hcl : cb.closed = true
      · rw [if_pos hcl]
        exact scanGo_errInv split hP _ _
          (fun msg hmsg => by
            simp only [] at hmsg
            exact absurd hmsg (by simp))
      · rw [if_neg hcl]
        exact scanGo_errInv split hP _ _
          (fun msg hmsg => by
            simp only [] at hmsg
            exact absurd hmsg (by simp))
termination_by (if sc.serr.isSome then 0 else cb.len + 1)
decreasing_by all_goals simp_all [cbDrainAll, CircularBuffer.Consume, CircularBuffer.addLen]

/-- C2: counterexample to the literal claim.  After writing the unterminated
object `{"a":` and closing the buffer, the first wake-up records the
malformed-token error but the sink is invoked TWICE, not once: the goroutine
emits the diagnostic record and then unconditionally folds the (empty) stale
`scanner.Bytes()` through the interpreters and emits that result as well;
and because the closed channel keeps the select firing while the scanner
error is sticky, the second wake-up emits the same pair again instead of
stopping at one diagnostic. -/
theorem C2_sink_not_called_once :
    engineRun JSONSplit 2 c2Eng0 =
      some (c2E2,
        [diagFS "incomplete JSON object", [], diagFS "incomplete JSON object", []]) := by
  simp only [engineRun, c2_step1, c2_step2]
  rfl

/-- C2 (amended): when the tokenizer reports a malformed-token error during
a wake-up, the engine hands the sink two records in that wake-up — first the
synthetic diagnostic `\x7bmodule: filter, level: error, error: message\x7d`, then,
unconditionally, the interpreter fold of the scanner's stale token bytes —
and the buffered window is not advanced past the unmatched data: the
retained window still reproduces the same error when split at end-of-stream,
and this property is preserved as an invariant, so the error repeats on
every later wake-up rather than being reported exactly once. -/
theorem C2_error_diag_and_extra_record (e e2 : Eng) (outs : List FieldSet) (msg : String)
    (hinv : ErrInv JSONSplit e.sc)
    (hstep : engineStep JSONSplit e = some (e2, outs))
    (herr : e2.sc.serr = some (ScErr.splitErr msg)) :
    outs = [diagFS msg, (runTerps e.terps e2.sc.stoken []).snd] ∧
    (JSONSplit e2.sc.sbuf true).err = some msg ∧
    ErrInv JSONSplit e2.sc := by
  have hP : ∀ d m, (JSONSplit d false).err = some m → (JSONSplit d true).err = some m := by
    intro d m h
    rw [jsonSplit_false_no_err d] at h
    exact absurd h (by simp)
  unfold engineStep at hstep
  by_cases hready : e.cb.chPending = true ∨ e.cb.chClosed = true
  · rw [if_pos hready] at hstep
    rcases hgo : scanGo JSONSplit e.sc { e.cb with chPending := false } with ⟨ok, sc2, cb2⟩
    rw [hgo] at hstep
    simp only [] at hstep
    injection hstep with hpair
    injection hpair with hE hO
    have hEI := scanGo_errInv JSONSplit hP e.sc { e.cb with chPending := false } hinv
    rw [hgo] at hEI
    simp only [] at hEI
    have hsc2 : e2.sc = sc2 := by rw [← hE]
    have herr2 : sc2.serr = some (ScErr.splitErr msg) := by rw [← hsc2]; exact herr
    have hok : ok = false := hEI.2 msg herr2
    refine ⟨?_, ?_, ?_⟩
    · rw [hsc2, ← hO, hok, herr2]
      simp [scErrMsg]
    · rw [hsc2]
      exact hEI.1 msg herr2
    · rw [hsc2]
      exact hEI.1
  · rw [if_neg hready] at hstep
    exact absurd hstep (by simp)

theorem c2E1_errinv : ErrInv JSONSplit c2E1.sc := by
  intro msg hmsg
  rw [show c2E1.sc.serr = some (ScErr.splitErr "incomplete JSON object") from rfl] at hmsg
  injection hmsg with h2
  injection h2 with h3
  rw [show c2E1.sc.sbuf = exIncomplete from rfl, ← h3, jsonSplit_eq_spec]
  decide

theorem C2_error_diag_and_extra_record_witness :
    ([diagFS "incomplete JSON object", []] : List FieldSet) =
      [diagFS "incomplete JSON object",
        (runTerps c2E1.terps c2E2.sc.stoken []).snd] ∧
    (JSONSplit c2E2.sc.sbuf true).err = some "incomplete JSON object" ∧
    ErrInv JSONSplit c2E2.sc :=
  C2_error_diag_and_extra_record c2E1 c2E2 [diagFS "incomplete JSON object", []]
    "incomplete JSON object" c2E1_errinv c2_step2 rfl
